import Mathlib

/-!
Verification development for the retunnel-client repository.

The definitions below are shallow embeddings of the client runtime in
`retunnel/client/high_performance_model.py` (the "high-performance client",
the variant the specification adopts), together with the frame codec it uses
(msgpack encoding plus an 8-byte big-endian length prefix) and the
`Location`-header rewrite applied to proxied 3xx responses
(built on CPython 3.11 `urllib.parse.urlparse` / `urlunparse`).

Conventions:
* machine bytes are `Nat` values `< 256`; byte strings are `List Nat`;
* Python `None` / missing dict fields are `Option`;
* Python string truthiness (`if s:`) is modelled by `truthyOpt`;
* raised exceptions are values of `PyError` returned in `Except`;
* wall-clock effects (sleeps, timestamps) are not modelled; a timed wait is
  modelled by an oracle saying whether a response arrived before the deadline.
-/

namespace Retunnel

/-- Python-style truthiness for an optional string: `None` and `""` are falsy. -/
def truthyOpt (o : Option String) : Option String :=
  match o with
  | none => none
  | some s => if s = "" then none else some s

/-- Bool test for whether a list is a contiguous infix of another
(Python's `pat in hay` for strings). -/
def listHasInfix (pat : List Char) : List Char → Bool
  | [] => pat.isEmpty
  | c :: rest => pat.isPrefixOf (c :: rest) || listHasInfix pat rest

/-- Python `pat in hay` on strings. -/
def hasSubstr (hay pat : String) : Bool :=
  listHasInfix pat.toList hay.toList

/-- Lookup in a Python-dict modelled as an association list (`d.get(k)`). -/
def dictGet {α : Type} (l : List (String × α)) (k : String) : Option α :=
  match l with
  | [] => none
  | (k', v) :: rest => if k' = k then some v else dictGet rest k

/-- Update/insert in a Python-dict modelled as an association list (`d[k] = v`). -/
def dictSet {α : Type} (l : List (String × α)) (k : String) (v : α) :
    List (String × α) :=
  match l with
  | [] => [(k, v)]
  | (k', v') :: rest =>
      if k' = k then (k', v) :: rest else (k', v') :: dictSet rest k v

/-- Removal from a Python-dict modelled as an association list
(`d.pop(k, None)`). -/
def dictPop {α : Type} (l : List (String × α)) (k : String) :
    List (String × α) :=
  match l with
  | [] => []
  | (k', v) :: rest =>
      if k' = k then dictPop rest k else (k', v) :: dictPop rest k

theorem dictGet_dictPop {α : Type} (l : List (String × α)) (k : String) :
    dictGet (dictPop l k) k = none := by
  induction l with
  | nil => rfl
  | cons p rest ih =>
      obtain ⟨k1, v1⟩ := p
      by_cases h1 : k1 = k <;> simp [dictPop, dictGet, h1, ih]

theorem dictGet_dictPop_ne {α : Type} (l : List (String × α)) (k k' : String)
    (h : k ≠ k') : dictGet (dictPop l k') k = dictGet l k := by
  have h' : ¬ k' = k := fun hk => h hk.symm
  induction l with
  | nil => rfl
  | cons p rest ih =>
      obtain ⟨k1, v1⟩ := p
      by_cases h1 : k1 = k'
      · have h2 : ¬ k1 = k := fun hk => h (hk.symm.trans h1)
        simp [dictPop, dictGet, h1, h2, h', ih]
      · by_cases h2 : k1 = k <;> simp [dictPop, dictGet, h1, h2, h, h', ih]

theorem dictGet_dictSet {α : Type} (l : List (String × α)) (k : String) (v : α) :
    dictGet (dictSet l k v) k = some v := by
  induction l with
  | nil => simp [dictSet, dictGet]
  | cons p rest ih =>
      obtain ⟨k1, v1⟩ := p
      by_cases h1 : k1 = k <;> simp [dictSet, dictGet, h1, ih]

theorem dictGet_dictSet_ne {α : Type} (l : List (String × α)) (k k' : String)
    (v : α) (h : k ≠ k') : dictGet (dictSet l k' v) k = dictGet l k := by
  have h' : ¬ k' = k := fun hk => h hk.symm
  induction l with
  | nil => simp [dictSet, dictGet, h']
  | cons p rest ih =>
      obtain ⟨k1, v1⟩ := p
      by_cases h1 : k1 = k'
      · have h2 : ¬ k1 = k := fun hk => h' (h1.symm.trans hk)
        simp [dictSet, dictGet, h1, h2, h']
      · by_cases h2 : k1 = k <;> simp [dictSet, dictGet, h1, h2, h, h', ih]

/-- Exceptions of the Python runtime that the client code can raise.
`exn` is a plain `Exception(msg)`; `timeoutError` is `asyncio.TimeoutError`
raised by `asyncio.wait_for`; `connectionError` is the typed
`retunnel.core.exceptions.ConnectionError` (defined in the repository;
never raised by the high-performance client itself). -/
inductive PyError where
  | exn (msg : String)
  | valueError (msg : String)
  | apiError (status : Nat) (msg : String)
  | timeoutError
  | connectionError (msg : String)
deriving DecidableEq, Repr

/-- String rendering of an exception (Python `str(e)`), as used in
f-string interpolations of the source. `APIError.__init__` sets the message
to `"API Error {status}: {message}"`. -/
def PyError.render : PyError → String
  | .exn m => m
  | .valueError m => m
  | .apiError s m => "API Error " ++ toString s ++ ": " ++ m
  | .timeoutError => ""
  | .connectionError m => m

/-- Configuration for a tunnel (dataclass `TunnelConfig`). -/
structure TunnelConfig where
  protocol : String
  local_port : Nat
  name : Option String := none
  auth : Option String := none
  remote_port : Option Nat := none
  subdomain : Option String := none
  hostname : Option String := none
  inspect : Bool := true
deriving DecidableEq, Repr

/-- Active tunnel information (dataclass `Tunnel`). The wall-clock
`created_at` field is not modelled. -/
structure Tunnel where
  id : String
  url : String
  protocol : String
  config : TunnelConfig
  tunnel_id : String := ""
  subdomain : Option String := none
  bytes_in : Nat := 0
  bytes_out : Nat := 0
deriving DecidableEq, Repr

/-- A control-protocol message as decoded into a Python dict; only the
fields the client reads are modelled, each as an optional string.
`typeU` / `typeL` are the `"Type"` / `"type"` keys; `payloadReqId` is
`msg.get("Payload", {}).get("req_id")`. -/
structure CtrlMsg where
  typeU : Option String := none
  typeL : Option String := none
  reqId : Option String := none
  payloadReqId : Option String := none
  errorCode : Option String := none
  message : Option String := none
  error : Option String := none
  url : Option String := none
  subdomain : Option String := none
  tunnelId : Option String := none
  protocol : Option String := none
  clientId : Option String := none
deriving DecidableEq, Repr

/-- One-shot result slot of `asyncio.Future` held in `pending_requests`.
The source only ever completes a future via `set_result`; `failed` models the
`set_exception` capability (unused by the source). -/
inductive FutState where
  | waiting
  | done (resp : CtrlMsg)
  | failed (e : PyError)
deriving DecidableEq, Repr

/-- The mutable state of `HighPerformanceClient` relevant to the claims.
`control_ws` is `True` when `self.control_ws` is an open connection. -/
structure ClientState where
  control_ws : Bool
  pending_requests : List (String × FutState)
  tunnels : List (String × Tunnel)
  is_connected : Bool
  connection_status : String
  reconnect_delay : ℚ
  reconnecting : Bool
  running : Bool
deriving DecidableEq, Repr

/-- The state produced by `HighPerformanceClient.__init__`. -/
def initState : ClientState :=
  { control_ws := false
    pending_requests := []
    tunnels := []
    is_connected := false
    connection_status := "Disconnected"
    reconnect_delay := 1
    reconnecting := false
    running := true }

/-- Whether a tunnel-request's 10-second wait observed a response
(completed future) or expired. -/
inductive RTOutcome where
  | response (resp : CtrlMsg)
  | timeout
deriving DecidableEq, Repr

/-- Result of one `request_tunnel` call: the returned value or raised
exception, the post-call client state, whether the `ReqTunnel` frame was
actually sent (it is skipped when `self.control_ws` is `None`), and whether
the call entered the 10-second `asyncio.wait_for` (it always does). -/
structure RTResult where
  result : Except PyError Tunnel
  state : ClientState
  sentRequest : Bool
  waited : Bool
deriving Repr

/-- Shallow embedding of `HighPerformanceClient.request_tunnel`.
The request id is minted by the caller (`generate_request_id`); `outcome`
is the oracle for the 10-second wait on the future. -/
def requestTunnel (st : ClientState) (reqId : String) (cfg : TunnelConfig)
    (outcome : RTOutcome) : RTResult :=
  let pend1 := dictSet st.pending_requests reqId FutState.waiting
  match outcome with
  | .timeout =>
      { result := .error .timeoutError
        state := { st with pending_requests := dictPop pend1 reqId }
        sentRequest := st.control_ws
        waited := true }
  | .response resp =>
      let st2 : ClientState := { st with pending_requests := dictPop pend1 reqId }
      if resp.typeU = some "ErrorResp" then
        let ec := resp.errorCode.getD "UNKNOWN"
        let m := resp.message.getD "Unknown error"
        let e : PyError :=
          if ec = "OVER_CAPACITY" then
            .exn "No subdomains available. Please try again later."
          else if ec = "FREE_TIER_LIMIT_REACHED" then
            .exn "Free tier limit reached. You can have a maximum of 2 active tunnels."
          else .exn (ec ++ ": " ++ m)
        { result := .error e, state := st2, sentRequest := st.control_ws, waited := true }
      else
        match truthyOpt resp.error with
        | some err =>
            { result := .error (.exn ("Tunnel creation failed: " ++ err))
              state := st2, sentRequest := st.control_ws, waited := true }
        | none =>
            let url0 := resp.url.getD ""
            let subd := resp.subdomain.getD ""
            let tid0 := resp.tunnelId.getD ""
            let tid := if tid0 = "" then subd else tid0
            let url :=
              if cfg.protocol = "http" ∧ subd ≠ "" ∧ url0 ≠ "" ∧
                  (hasSubstr url0 "localhost" ∨ hasSubstr url0 "127.0.0.1")
              then "https://" ++ subd ++ ".retunnel.net" else url0
            let t : Tunnel :=
              { id := tid, url := url, protocol := resp.protocol.getD cfg.protocol
                config := cfg, tunnel_id := tid, subdomain := some subd }
            { result := .ok t
              state := { st2 with tunnels := dictSet st2.tunnels t.id t }
              sentRequest := st.control_ws, waited := true }

/-- Field-name normalisation at the top of `_handle_message`
(`msg["Type"] = msg["type"]` when only the lowercase key is present). -/
def normalizeMsg (m : CtrlMsg) : CtrlMsg :=
  { m with typeU := match m.typeU with | some t => some t | none => m.typeL }

/-- The request id a `NewTunnel` / `ErrorResp` frame is routed by
(`msg.get("ReqId")`, with the `ErrorResp` fallback to
`msg.get("Payload", {}).get("req_id")`, then Python truthiness). -/
def effectiveReqId (m0 : CtrlMsg) : Option String :=
  let m := normalizeMsg m0
  if m.typeU = some "NewTunnel" then truthyOpt m.reqId
  else if m.typeU = some "ErrorResp" then
    match truthyOpt m.reqId with
    | some r => some r
    | none => truthyOpt m.payloadReqId
  else none

/-- Completion step shared by the `NewTunnel` and `ErrorResp` dispatcher
branches: `if future and not future.done(): future.set_result(msg)`.
A missing or already-completed future leaves the table unchanged. -/
def completePending (st : ClientState) (rid : String) (m : CtrlMsg) :
    ClientState :=
  match dictGet st.pending_requests rid with
  | some .waiting =>
      { st with pending_requests := dictSet st.pending_requests rid (.done m) }
  | _ => st

/-- Shallow embedding of `HighPerformanceClient._handle_message` restricted to
its effect on the pending-request table (`ReqProxy`, `Ping`, `Pong` and
unknown tags do not touch it, hence `effectiveReqId` is `none` for them).
The function is total: a frame with no matching waiter, or whose waiter is
already completed, leaves the state unchanged and raises nothing. -/
def handleMessage (st : ClientState) (m0 : CtrlMsg) : ClientState :=
  match effectiveReqId m0 with
  | none => st
  | some rid => completePending st rid (normalizeMsg m0)

/-- State effect of `_control_loop` when the connection is lost
(before it spawns `_reconnect`). -/
def controlLoopDisconnect (st : ClientState) : ClientState :=
  { st with is_connected := false, connection_status := "Disconnected" }

/-- State effect of the head of one `_reconnect` iteration: mark
reconnecting, update the status string, close the current transport and
session. The pending-request table is not touched. -/
def reconnectPrelude (st : ClientState) : ClientState :=
  { st with reconnecting := true
            connection_status := "Connecting..."
            control_ws := false }

/-- State effect of a successful `connect()` (lines 369-373 of the source):
mark connected and reset the reconnect delay to 1 second. -/
def connectSuccessEffect (st : ClientState) : ClientState :=
  { st with control_ws := true
            is_connected := true
            connection_status := "Connected"
            reconnect_delay := 1 }

/-- One tunnel re-request inside `_reconnect`: the config is re-used, with
`subdomain` forced to the previously issued subdomain for HTTP tunnels;
failures are logged and ignored, so only the state effect remains. -/
def reRequestOne (st : ClientState) (t : Tunnel) (reqId : String)
    (outcome : RTOutcome) : ClientState :=
  let cfg := if t.protocol = "http" then { t.config with subdomain := t.subdomain }
             else t.config
  (requestTunnel st reqId cfg outcome).state

/-- A plan for the re-request loop of `_reconnect`: one minted request id and
wait outcome per tunnel in the (snapshotted) registry. -/
abbrev ReconnectPlan : Type := List (String × RTOutcome)

/-- The re-request loop of `_reconnect` over the snapshot
`list(self.tunnels.values())`. -/
def reRequestTunnels (st : ClientState) (plan : ReconnectPlan) : ClientState :=
  ((st.tunnels.map Prod.snd).zip plan).foldl
    (fun s tv => reRequestOne s tv.1 tv.2.1 tv.2.2) st

/-- One iteration of the `_reconnect` loop. `none` means the `connect()`
call raised (the delay is doubled, capped at `_max_reconnect_delay = 16`);
`some plan` means `connect()` succeeded and the registry tunnels were
re-requested according to `plan`, after which the loop exits. -/
def reconnectIterationModel (st : ClientState) (res : Option ReconnectPlan) :
    ClientState :=
  match res with
  | none =>
      { reconnectPrelude st with
          reconnect_delay := min (2 * st.reconnect_delay) 16
          connection_status := "Reconnection failed, retrying..." }
  | some plan =>
      { reRequestTunnels (connectSuccessEffect (reconnectPrelude st)) plan with
          reconnecting := false }

/-- The delays slept by successive iterations of the `_reconnect` loop
(`await asyncio.sleep(self._reconnect_delay)` happens at the top of each
iteration; the loop exits after the first successful attempt). -/
def sleptDelays (st : ClientState) : List (Option ReconnectPlan) → List ℚ
  | [] => []
  | a :: rest =>
      st.reconnect_delay ::
        match a with
        | some _ => []
        | none => sleptDelays (reconnectIterationModel st none) rest

/-- Byte accounting of one proxied request/response exchange inside
`_handle_proxy_connection`: `tunnel.bytes_in += len(request_bytes)` and
`tunnel.bytes_out += len(response_body) + len(str(response_headers))`.
`reqBytes` / `respBytes` are those two (non-negative) byte counts. -/
def applyProxyExchange (t : Tunnel) (reqBytes respBytes : Nat) : Tunnel :=
  { t with bytes_in := t.bytes_in + reqBytes
           bytes_out := t.bytes_out + respBytes }

/-- A sequence of proxied exchanges applied to one tunnel. -/
def applyProxyTrace (t : Tunnel) (evs : List (Nat × Nat)) : Tunnel :=
  evs.foldl (fun acc e => applyProxyExchange acc e.1 e.2) t

/-- REST calls the token-repair path of `connect` can make. `register` is
`api.register_user()` with no email, which registers a fresh anonymous user
(the spec's *register_anonymous*). -/
inductive ApiCall where
  | reactivate (old : String)
  | register
deriving DecidableEq, Repr

/-- Outcome of one REST call: the parsed JSON's `auth_token` field
(`none` when absent), or a raised exception. -/
inductive ApiResult where
  | ok (authToken : Option String)
  | err (e : PyError)
deriving DecidableEq, Repr

/-- The environment a run of the authentication part of `connect` observes:
the `Error` field of the first `AuthResp`, the result of the first repair
call (`reactivate_token(old_token)` when a token existed, else
`register_user()`), the result of the `register_user()` fallback issued on
an `APIError` with status 404, and the `Error` field of the `AuthResp`
received after re-authenticating. -/
structure AuthEnv where
  firstError : Option String
  firstCallResult : ApiResult
  fallbackRegisterResult : ApiResult
  secondError : Option String
deriving DecidableEq, Repr

/-- Observable outcome of the authentication part of `connect`:
whether the first transport was closed, the REST calls made in order, the
tokens passed to `config_manager.set_auth_token` in order, whether the
`Auth` frame was re-sent (the retry), the final `self.auth_token`, and the
returned value or raised exception. -/
structure AuthFlowResult where
  closedFirstWs : Bool
  apiCalls : List ApiCall
  persisted : List String
  authRetried : Bool
  finalToken : Option String
  result : Except PyError Unit
deriving Repr

/-- Tail of the repair path once a fresh token was obtained (either from
`reactivate_token` or from the 404-fallback `register_user`): persist the
token, reconnect, re-send `Auth` once, and read the second `AuthResp`;
a second error is fatal. `calls` is the list of REST calls made so far. -/
def afterRepairToken (calls : List ApiCall) (tok : String)
    (secondError : Option String) : AuthFlowResult :=
  match truthyOpt secondError with
  | some e2 =>
      { closedFirstWs := true, apiCalls := calls, persisted := [tok]
        authRetried := true, finalToken := some tok
        result := .error (.exn
          ("Authentication failed after token reactivation: " ++ e2)) }
  | none =>
      { closedFirstWs := true, apiCalls := calls, persisted := [tok]
        authRetried := true, finalToken := some tok, result := .ok () }

/-- The token-repair block of `connect` (the `try`/`except` around
`reactivate_token` / `register_user` and the retried authentication).
Control-flow notes, mirroring Python semantics: a `ValueError` raised
inside the `try` block is caught by the generic `except Exception` handler
and re-raised as a plain `Exception`; exceptions raised inside the
`except APIError` clause itself (including the `ValueError` of the
404-fallback path and any error of the fallback `register_user()` call)
propagate uncaught. -/
def tokenRepair (firstCall : ApiCall) (oldToken : Option String)
    (env : AuthEnv) : AuthFlowResult :=
  match env.firstCallResult with
  | .ok (some tok) => afterRepairToken [firstCall] tok env.secondError
  | .ok none =>
      { closedFirstWs := true, apiCalls := [firstCall], persisted := []
        authRetried := false, finalToken := none
        result := .error (.exn
          ("Authentication failed and could not reactivate token: " ++
           "No auth token in reactivation response")) }
  | .err e =>
      match e with
      | .apiError status m =>
          if status = 404 then
            match env.fallbackRegisterResult with
            | .ok (some tok) =>
                afterRepairToken [firstCall, .register] tok env.secondError
            | .ok none =>
                { closedFirstWs := true
                  apiCalls := [firstCall, .register], persisted := []
                  authRetried := false, finalToken := none
                  result := .error (.valueError
                    "No auth token in registration response") }
            | .err e2 =>
                { closedFirstWs := true
                  apiCalls := [firstCall, .register], persisted := []
                  authRetried := false, finalToken := oldToken
                  result := .error e2 }
          else
            { closedFirstWs := true, apiCalls := [firstCall]
              persisted := [], authRetried := false
              finalToken := oldToken
              result := .error (.exn
                ("Token reactivation failed: " ++
                 PyError.render (.apiError status m))) }
      | _ =>
          { closedFirstWs := true, apiCalls := [firstCall]
            persisted := [], authRetried := false
            finalToken := oldToken
            result := .error (.exn
              ("Authentication failed and could not reactivate token: " ++
               e.render)) }

/-- Shallow embedding of the authentication-response handling of
`HighPerformanceClient.connect` (source lines 276-358), starting from the
first received `AuthResp`. The repair branch is entered when the error
contains `"Invalid auth token"`; the transport is closed first, then
`reactivate_token(old_token)` is called when a token existed, else
`register_user()`. -/
def connectAuthHandle (oldToken : Option String) (env : AuthEnv) :
    AuthFlowResult :=
  match truthyOpt env.firstError with
  | none =>
      { closedFirstWs := false, apiCalls := [], persisted := []
        authRetried := false, finalToken := oldToken, result := .ok () }
  | some err =>
      if hasSubstr err "Invalid auth token" then
        tokenRepair
          (match oldToken with
           | some t => .reactivate t
           | none => .register)
          oldToken env
      else
        { closedFirstWs := false, apiCalls := [], persisted := []
          authRetried := false, finalToken := oldToken
          result := .error (.exn ("Authentication failed: " ++ err)) }

theorem requestTunnel_pending (st : ClientState) (reqId : String)
    (cfg : TunnelConfig) (outcome : RTOutcome) :
    (requestTunnel st reqId cfg outcome).state.pending_requests =
      dictPop (dictSet st.pending_requests reqId FutState.waiting) reqId := by
  cases outcome with
  | timeout => rfl
  | response resp =>
      dsimp only [requestTunnel]
      split
      · rfl
      · split <;> rfl

theorem requestTunnel_delay (st : ClientState) (reqId : String)
    (cfg : TunnelConfig) (outcome : RTOutcome) :
    (requestTunnel st reqId cfg outcome).state.reconnect_delay =
      st.reconnect_delay := by
  cases outcome with
  | timeout => rfl
  | response resp =>
      dsimp only [requestTunnel]
      split
      · rfl
      · split <;> rfl

theorem requestTunnel_pending_other (st : ClientState) (reqId : String)
    (cfg : TunnelConfig) (outcome : RTOutcome) (k : String) (h : k ≠ reqId) :
    dictGet (requestTunnel st reqId cfg outcome).state.pending_requests k =
      dictGet st.pending_requests k := by
  rw [requestTunnel_pending, dictGet_dictPop_ne _ _ _ h,
    dictGet_dictSet_ne _ _ _ _ h]

theorem reRequestOne_pending_other (st : ClientState) (t : Tunnel)
    (reqId : String) (outcome : RTOutcome) (k : String) (h : k ≠ reqId) :
    dictGet (reRequestOne st t reqId outcome).pending_requests k =
      dictGet st.pending_requests k := by
  unfold reRequestOne
  split <;> exact requestTunnel_pending_other _ _ _ _ _ h

theorem reRequestOne_delay (st : ClientState) (t : Tunnel) (reqId : String)
    (outcome : RTOutcome) :
    (reRequestOne st t reqId outcome).reconnect_delay = st.reconnect_delay := by
  unfold reRequestOne
  split <;> exact requestTunnel_delay _ _ _ _

theorem reRequestFold_delay (l : List (Tunnel × (String × RTOutcome)))
    (s : ClientState) :
    (l.foldl (fun s tv => reRequestOne s tv.1 tv.2.1 tv.2.2) s).reconnect_delay
      = s.reconnect_delay := by
  induction l generalizing s with
  | nil => rfl
  | cons x xs ih => rw [List.foldl_cons, ih, reRequestOne_delay]

theorem reRequestTunnels_delay (st : ClientState) (plan : ReconnectPlan) :
    (reRequestTunnels st plan).reconnect_delay = st.reconnect_delay :=
  reRequestFold_delay _ _

theorem reRequestFold_pending_other
    (l : List (Tunnel × (String × RTOutcome))) (s : ClientState) (k : String)
    (h : ∀ x ∈ l, k ≠ x.2.1) :
    dictGet
      ((l.foldl (fun s tv => reRequestOne s tv.1 tv.2.1 tv.2.2) s)).pending_requests k
      = dictGet s.pending_requests k := by
  induction l generalizing s with
  | nil => rfl
  | cons x xs ih =>
      rw [List.foldl_cons, ih _ (fun y hy => h y (List.mem_cons_of_mem _ hy)),
        reRequestOne_pending_other _ _ _ _ _ (h x (List.mem_cons_self _ _))]

theorem reRequestTunnels_pending_other (st : ClientState) (plan : ReconnectPlan)
    (k : String) (h : ∀ ro ∈ plan, k ≠ ro.1) :
    dictGet (reRequestTunnels st plan).pending_requests k =
      dictGet st.pending_requests k := by
  unfold reRequestTunnels
  apply reRequestFold_pending_other
  rintro ⟨t0, ro⟩ hx
  exact h ro (List.of_mem_zip hx).2

theorem sleptDelays_le (st : ClientState)
    (attempts : List (Option ReconnectPlan)) (hd : st.reconnect_delay ≤ 16) :
    ∀ d ∈ sleptDelays st attempts, d ≤ 16 := by
  induction attempts generalizing st with
  | nil => intro d hdm; simp [sleptDelays] at hdm
  | cons a rest ih =>
      intro d hdm
      cases a with
      | some p =>
          simp [sleptDelays] at hdm
          exact hdm ▸ hd
      | none =>
          simp [sleptDelays] at hdm
          rcases hdm with h1 | h2
          · exact h1 ▸ hd
          · refine ih _ ?_ d h2
            show min (2 * st.reconnect_delay) 16 ≤ 16
            exact min_le_right _ _

theorem applyProxyTrace_mono (t : Tunnel) (evs : List (Nat × Nat)) :
    t.bytes_in ≤ (applyProxyTrace t evs).bytes_in ∧
    t.bytes_out ≤ (applyProxyTrace t evs).bytes_out := by
  induction evs generalizing t with
  | nil => exact ⟨le_refl _, le_refl _⟩
  | cons e rest ih =>
      have h1 := ih (applyProxyExchange t e.1 e.2)
      exact ⟨le_trans (Nat.le_add_right _ _) h1.1,
             le_trans (Nat.le_add_right _ _) h1.2⟩

theorem completePending_none (st : ClientState) (rid : String) (m : CtrlMsg)
    (h : dictGet st.pending_requests rid = none) :
    completePending st rid m = st := by
  simp [completePending, h]

theorem completePending_done (st : ClientState) (rid : String)
    (m r0 : CtrlMsg) (h : dictGet st.pending_requests rid = some (.done r0)) :
    completePending st rid m = st := by
  simp [completePending, h]

theorem completePending_idem (st : ClientState) (rid : String) (m : CtrlMsg) :
    completePending (completePending st rid m) rid m =
      completePending st rid m := by
  cases hG : dictGet st.pending_requests rid with
  | none =>
      rw [completePending_none st rid m hG, completePending_none st rid m hG]
  | some f =>
      cases f with
      | waiting =>
          have h1 : completePending st rid m =
              { st with pending_requests :=
                  dictSet st.pending_requests rid (.done m) } := by
            simp [completePending, hG]
          rw [h1]
          exact completePending_done _ _ _ m (dictGet_dictSet _ _ _)
      | done r0 =>
          rw [completePending_done st rid m r0 hG,
            completePending_done st rid m r0 hG]
      | failed e =>
          have h1 : completePending st rid m = st := by
            simp [completePending, hG]
          rw [h1, h1]

/-- The concrete tunnel configuration used by witnesses. -/
def cfgHttp : TunnelConfig := { protocol := "http", local_port := 8080 }

/-- C5 (counterexample): on the freshly initialised (hence non-connected)
client, `request_tunnel` enters the 10-second wait (it blocks) and fails
with `asyncio.TimeoutError`, not with a `ConnectionError`, contradicting
the claim that the call fails immediately with `ConnectionError` and never
blocks. -/
theorem claimC5_counterexample :
    (requestTunnel initState "req_1" cfgHttp .timeout).waited = true ∧
    (requestTunnel initState "req_1" cfgHttp .timeout).sentRequest = false ∧
    (requestTunnel initState "req_1" cfgHttp .timeout).result =
      .error .timeoutError :=
  ⟨rfl, rfl, rfl⟩

/-- C5 (amended): `request_tunnel` performs no connectivity check: invoked
while `control_ws` is absent it still registers a waiter, skips the send,
enters the full 10-second wait, and — since no control session exists to
complete the waiter — fails with `asyncio.TimeoutError` rather than
`ConnectionError`; the request id is removed on the way out. -/
theorem claimC5_disconnected_amended (st : ClientState) (reqId : String)
    (cfg : TunnelConfig) (h : st.control_ws = false) :
    (requestTunnel st reqId cfg .timeout).sentRequest = false ∧
    (requestTunnel st reqId cfg .timeout).waited = true ∧
    (requestTunnel st reqId cfg .timeout).result = .error .timeoutError ∧
    dictGet (requestTunnel st reqId cfg .timeout).state.pending_requests reqId
      = none := by
  refine ⟨h, rfl, rfl, ?_⟩
  rw [requestTunnel_pending]
  exact dictGet_dictPop _ _

/-- Witness for the amended C5 statement at a concrete disconnected state. -/
theorem claimC5_witness :
    initState.control_ws = false ∧
    ((requestTunnel initState "req_2" cfgHttp .timeout).sentRequest = false ∧
     (requestTunnel initState "req_2" cfgHttp .timeout).waited = true ∧
     (requestTunnel initState "req_2" cfgHttp .timeout).result =
       .error .timeoutError ∧
     dictGet (requestTunnel initState "req_2" cfgHttp
       .timeout).state.pending_requests "req_2" = none) :=
  ⟨rfl, claimC5_disconnected_amended initState "req_2" cfgHttp rfl⟩

/-- C6: a `request_tunnel` whose 10-second wait expires fails with the
wait's timeout error (the spec's error taxonomy classes a timed-out tunnel
request as a tunnel error), and on every completion path — success, error
response, or timeout — the minted request id has been removed from the
pending-request table by the `finally` block. -/
theorem claimC6_timeout_cleanup (st : ClientState) (reqId : String)
    (cfg : TunnelConfig) (outcome : RTOutcome) :
    (outcome = .timeout →
      (requestTunnel st reqId cfg outcome).result = .error .timeoutError) ∧
    dictGet (requestTunnel st reqId cfg outcome).state.pending_requests reqId
      = none := by
  constructor
  · rintro rfl; rfl
  · rw [requestTunnel_pending]
    exact dictGet_dictPop _ _

/-- Witness for C6 at a concrete timed-out request. -/
theorem claimC6_witness :
    (requestTunnel initState "req_3" cfgHttp .timeout).result =
      .error .timeoutError ∧
    dictGet (requestTunnel initState "req_3" cfgHttp
      .timeout).state.pending_requests "req_3" = none :=
  ⟨(claimC6_timeout_cleanup initState "req_3" cfgHttp .timeout).1 rfl,
   (claimC6_timeout_cleanup initState "req_3" cfgHttp .timeout).2⟩

/-- C3: in the `_reconnect` loop, a failed iteration sets the delay to
`min(2·d, 16)`, a successful iteration resets the delay to 1 second (via
`connect()`) and exits the loop (`_reconnecting` becomes false), and —
starting from any delay at most 16, in particular the initial 1 — every
delay ever slept is at most 16 seconds. -/
theorem claimC3_backoff (st : ClientState) (p : ReconnectPlan)
    (attempts : List (Option ReconnectPlan)) (hd : st.reconnect_delay ≤ 16) :
    (reconnectIterationModel st none).reconnect_delay =
      min (2 * st.reconnect_delay) 16 ∧
    (reconnectIterationModel st (some p)).reconnect_delay = 1 ∧
    (reconnectIterationModel st (some p)).reconnecting = false ∧
    ∀ d ∈ sleptDelays st attempts, d ≤ 16 := by
  refine ⟨rfl, ?_, rfl, sleptDelays_le st attempts hd⟩
  show (reRequestTunnels (connectSuccessEffect (reconnectPrelude st)) p).reconnect_delay = 1
  rw [reRequestTunnels_delay]
  rfl

/-- Witness for C3 from the initial state and a run of two failures then a
success. -/
theorem claimC3_witness :
    initState.reconnect_delay ≤ 16 ∧
    ((reconnectIterationModel initState none).reconnect_delay =
       min (2 * initState.reconnect_delay) 16 ∧
     (reconnectIterationModel initState (some [])).reconnect_delay = 1 ∧
     (reconnectIterationModel initState (some [])).reconnecting = false ∧
     ∀ d ∈ sleptDelays initState [none, none, some []], d ≤ 16) :=
  ⟨by norm_num [initState],
   claimC3_backoff initState [] [none, none, some []] (by norm_num [initState])⟩

/-- A connected client with one in-flight tunnel request, used by C7. -/
def pendingState : ClientState :=
  { initState with control_ws := true, is_connected := true
                   connection_status := "Connected"
                   pending_requests := [("req_1", .waiting)] }

/-- C7 (counterexample): when the control loop observes a lost connection
and a reconnect iteration begins (and even after a whole failed iteration),
the pending-request table still contains the old waiter, still waiting — it
is neither drained nor failed with a connection error, contradicting the
claimed invariant. -/
theorem claimC7_counterexample :
    (reconnectPrelude (controlLoopDisconnect pendingState)).pending_requests
      = [("req_1", FutState.waiting)] ∧
    (reconnectIterationModel (controlLoopDisconnect pendingState)
      none).pending_requests = [("req_1", FutState.waiting)] :=
  ⟨rfl, rfl⟩

/-- C7 (amended): reconnect does not drain the pending-request table: the
control-loop disconnect path and `_reconnect` leave it untouched, and a
waiter pending at the start of a reconnect is still pending (never failed
with a connection error) after a failed iteration and even after a whole
successful iteration, provided its id differs from the freshly minted
re-request ids; entries leave the table only through `request_tunnel`'s own
completion paths (its 10-second timeout included). -/
theorem claimC7_no_drain_amended (st : ClientState) (plan : ReconnectPlan)
    (k : String) (hw : dictGet st.pending_requests k = some .waiting)
    (hk : ∀ ro ∈ plan, k ≠ ro.1) :
    (controlLoopDisconnect st).pending_requests = st.pending_requests ∧
    (reconnectPrelude st).pending_requests = st.pending_requests ∧
    dictGet (reconnectIterationModel st none).pending_requests k =
      some .waiting ∧
    dictGet (reconnectIterationModel st (some plan)).pending_requests k =
      some .waiting := by
  refine ⟨rfl, rfl, hw, ?_⟩
  show dictGet (reRequestTunnels (connectSuccessEffect (reconnectPrelude st))
    plan).pending_requests k = some .waiting
  rw [reRequestTunnels_pending_other _ _ _ hk]
  exact hw

/-- Witness for the amended C7 statement: the old waiter `req_1` survives a
successful reconnect iteration that re-requests under the fresh id `req_2`. -/
theorem claimC7_witness :
    dictGet pendingState.pending_requests "req_1" = some .waiting ∧
    ((controlLoopDisconnect pendingState).pending_requests =
       pendingState.pending_requests ∧
     (reconnectPrelude pendingState).pending_requests =
       pendingState.pending_requests ∧
     dictGet (reconnectIterationModel pendingState none).pending_requests
       "req_1" = some .waiting ∧
     dictGet (reconnectIterationModel pendingState
       (some [("req_2", .timeout)])).pending_requests "req_1" =
       some .waiting) :=
  ⟨rfl, claimC7_no_drain_amended pendingState [("req_2", .timeout)] "req_1" rfl
    (by intro ro hro; rcases List.mem_singleton.mp hro with rfl; decide)⟩

/-- C10: the dispatcher completes each pending waiter at most once: a
`NewTunnel`/`ErrorResp` frame whose (effective) request id has no entry, or
whose entry is already completed, leaves the state unchanged (the earlier
result is never overwritten and nothing is raised), and handling the same
frame twice equals handling it once. -/
theorem claimC10_at_most_once (st : ClientState) (m : CtrlMsg) (rid : String) :
    (effectiveReqId m = some rid → dictGet st.pending_requests rid = none →
      handleMessage st m = st) ∧
    (∀ r0, effectiveReqId m = some rid →
      dictGet st.pending_requests rid = some (.done r0) →
      handleMessage st m = st) ∧
    handleMessage (handleMessage st m) m = handleMessage st m := by
  refine ⟨?_, ?_, ?_⟩
  · intro h1 h2
    simp only [handleMessage, h1]
    exact completePending_none _ _ _ h2
  · intro r0 h1 h2
    simp only [handleMessage, h1]
    exact completePending_done _ _ _ _ h2
  · cases hE : effectiveReqId m with
    | none => simp only [handleMessage, hE]
    | some r =>
        simp only [handleMessage, hE]
        exact completePending_idem _ _ _

/-- Witness for C10: a duplicate `NewTunnel` response for an id whose
waiter is already completed is dropped. -/
theorem claimC10_witness :
    (effectiveReqId { typeU := some "NewTunnel", reqId := some "req_1" } =
       some "req_1" ∧
     dictGet pendingState.pending_requests "req_1" = none →
       handleMessage pendingState
         { typeU := some "NewTunnel", reqId := some "req_1" } = pendingState) ∧
    handleMessage
        (handleMessage pendingState
          { typeU := some "NewTunnel", reqId := some "req_1" })
        { typeU := some "NewTunnel", reqId := some "req_1" } =
      handleMessage pendingState
        { typeU := some "NewTunnel", reqId := some "req_1" } :=
  ⟨fun h => (claimC10_at_most_once pendingState
      { typeU := some "NewTunnel", reqId := some "req_1" } "req_1").1 h.1 h.2,
   (claimC10_at_most_once pendingState
      { typeU := some "NewTunnel", reqId := some "req_1" } "req_1").2.2⟩

theorem afterRepairToken_fields (calls : List ApiCall) (tok : String)
    (se : Option String) :
    (afterRepairToken calls tok se).closedFirstWs = true ∧
    (afterRepairToken calls tok se).apiCalls = calls ∧
    (afterRepairToken calls tok se).persisted = [tok] ∧
    (afterRepairToken calls tok se).authRetried = true := by
  unfold afterRepairToken
  split <;> exact ⟨rfl, rfl, rfl, rfl⟩

theorem afterRepairToken_secondError (calls : List ApiCall) (tok : String)
    (se : Option String) (e2 : String) (h : truthyOpt se = some e2) :
    (afterRepairToken calls tok se).result =
      .error (.exn ("Authentication failed after token reactivation: " ++ e2)) := by
  unfold afterRepairToken
  rw [h]

theorem tokenRepair_closed (fc : ApiCall) (old : Option String)
    (env : AuthEnv) : (tokenRepair fc old env).closedFirstWs = true := by
  unfold tokenRepair
  split
  · exact (afterRepairToken_fields _ _ _).1
  · rfl
  · split
    · split
      · split
        · exact (afterRepairToken_fields _ _ _).1
        · rfl
        · rfl
      · rfl
    · rfl

theorem tokenRepair_head (fc : ApiCall) (old : Option String)
    (env : AuthEnv) :
    (tokenRepair fc old env).apiCalls.head? = some fc := by
  unfold tokenRepair
  split
  · rw [(afterRepairToken_fields _ _ _).2.1]; rfl
  · rfl
  · split
    · split
      · split
        · rw [(afterRepairToken_fields _ _ _).2.1]; rfl
        · rfl
        · rfl
      · rfl
    · rfl

theorem tokenRepair_ok (fc : ApiCall) (old : Option String) (env : AuthEnv)
    (tok : String) (h : env.firstCallResult = .ok (some tok)) :
    tokenRepair fc old env = afterRepairToken [fc] tok env.secondError := by
  unfold tokenRepair
  rw [h]

theorem tokenRepair_404_calls (fc : ApiCall) (old : Option String)
    (env : AuthEnv) (m : String)
    (h : env.firstCallResult = .err (.apiError 404 m)) :
    (tokenRepair fc old env).apiCalls = [fc, .register] := by
  unfold tokenRepair
  rw [h]
  dsimp only
  rw [if_pos rfl]
  split
  · exact (afterRepairToken_fields _ _ _).2.1
  · rfl
  · rfl

theorem tokenRepair_404_ok (fc : ApiCall) (old : Option String)
    (env : AuthEnv) (m tok : String)
    (h : env.firstCallResult = .err (.apiError 404 m))
    (htok : env.fallbackRegisterResult = .ok (some tok)) :
    tokenRepair fc old env =
      afterRepairToken [fc, .register] tok env.secondError := by
  unfold tokenRepair
  rw [h, htok]
  rfl

theorem connectAuthHandle_invalid (old : Option String) (env : AuthEnv)
    (err : String) (hf : truthyOpt env.firstError = some err)
    (hsub : hasSubstr err "Invalid auth token" = true) :
    connectAuthHandle old env =
      tokenRepair
        (match old with | some t => .reactivate t | none => .register)
        old env := by
  unfold connectAuthHandle
  rw [hf]
  dsimp only
  rw [if_pos hsub]

/-- C1: if the first authentication response carries the error
`"Invalid auth token"` and a token existed, `connect` closes the transport,
calls `reactivate_token` with the old token first (falling back to the
anonymous `register_user` when that call raises `APIError` with status
404), persists exactly the fresh token, retries authentication exactly once
(the repair path re-sends `Auth` a single time), and an error in the
retried authentication response is fatal and surfaced to the caller as a
raised exception. -/
theorem claimC1_token_repair (t : String) (env : AuthEnv)
    (h1 : env.firstError = some "Invalid auth token") :
    (connectAuthHandle (some t) env).closedFirstWs = true ∧
    (connectAuthHandle (some t) env).apiCalls.head? =
      some (.reactivate t) ∧
    (∀ tok, env.firstCallResult = .ok (some tok) →
      (connectAuthHandle (some t) env).persisted = [tok] ∧
      (connectAuthHandle (some t) env).authRetried = true ∧
      ∀ e2, truthyOpt env.secondError = some e2 →
        (connectAuthHandle (some t) env).result =
          .error (.exn
            ("Authentication failed after token reactivation: " ++ e2))) ∧
    (∀ m, env.firstCallResult = .err (.apiError 404 m) →
      (connectAuthHandle (some t) env).apiCalls =
        [.reactivate t, .register] ∧
      ∀ tok, env.fallbackRegisterResult = .ok (some tok) →
        (connectAuthHandle (some t) env).persisted = [tok] ∧
        (connectAuthHandle (some t) env).authRetried = true ∧
        ∀ e2, truthyOpt env.secondError = some e2 →
          (connectAuthHandle (some t) env).result =
            .error (.exn
              ("Authentication failed after token reactivation: " ++ e2))) := by
  have hf : truthyOpt env.firstError = some "Invalid auth token" := by
    rw [h1]; rfl
  have hsub : hasSubstr "Invalid auth token" "Invalid auth token" = true := by
    decide
  have hred := connectAuthHandle_invalid (some t) env _ hf hsub
  rw [hred]
  refine ⟨tokenRepair_closed _ _ _, tokenRepair_head _ _ _, ?_, ?_⟩
  · intro tok htok
    rw [tokenRepair_ok _ _ _ _ htok]
    exact ⟨(afterRepairToken_fields _ _ _).2.2.1,
           (afterRepairToken_fields _ _ _).2.2.2,
           fun e2 he2 => afterRepairToken_secondError _ _ _ _ he2⟩
  · intro m hm
    refine ⟨tokenRepair_404_calls _ _ _ _ hm, ?_⟩
    intro tok htok
    rw [tokenRepair_404_ok _ _ _ _ _ hm htok]
    exact ⟨(afterRepairToken_fields _ _ _).2.2.1,
           (afterRepairToken_fields _ _ _).2.2.2,
           fun e2 he2 => afterRepairToken_secondError _ _ _ _ he2⟩

/-- The concrete repair environment used by the C1 witness: reactivation
succeeds with a fresh token but the retried authentication fails again. -/
def exEnvC1 : AuthEnv :=
  { firstError := some "Invalid auth token"
    firstCallResult := .ok (some "tok_new")
    fallbackRegisterResult := .ok none
    secondError := some "still invalid" }

/-- Witness for C1 at a concrete repair environment. -/
theorem claimC1_witness :
    (connectAuthHandle (some "tok_old") exEnvC1).closedFirstWs = true ∧
    (connectAuthHandle (some "tok_old") exEnvC1).apiCalls.head? =
      some (.reactivate "tok_old") ∧
    (connectAuthHandle (some "tok_old") exEnvC1).persisted = ["tok_new"] ∧
    (connectAuthHandle (some "tok_old") exEnvC1).authRetried = true ∧
    (connectAuthHandle (some "tok_old") exEnvC1).result =
      .error (.exn
        ("Authentication failed after token reactivation: " ++ "still invalid")) :=
  ⟨(claimC1_token_repair "tok_old" exEnvC1 rfl).1,
   (claimC1_token_repair "tok_old" exEnvC1 rfl).2.1,
   ((claimC1_token_repair "tok_old" exEnvC1 rfl).2.2.1 "tok_new" rfl).1,
   ((claimC1_token_repair "tok_old" exEnvC1 rfl).2.2.1 "tok_new" rfl).2.1,
   ((claimC1_token_repair "tok_old" exEnvC1 rfl).2.2.1 "tok_new" rfl).2.2
     "still invalid" rfl⟩

/-- C8 fixtures: an established tunnel with accumulated traffic counters,
the client state holding it, and the `NewTunnel` response obtained when the
tunnel is re-requested after a reconnect. -/
def exTunnelC8 : Tunnel :=
  { id := "demo", url := "https://demo.retunnel.net", protocol := "http"
    config := { protocol := "http", local_port := 8080, subdomain := some "demo" }
    tunnel_id := "demo", subdomain := some "demo"
    bytes_in := 5, bytes_out := 7 }

/-- Client state owning `exTunnelC8`. -/
def exStateC8 : ClientState :=
  { initState with control_ws := true, is_connected := true
                   tunnels := [("demo", exTunnelC8)] }

/-- Successful `NewTunnel` response for the re-request of `exTunnelC8`. -/
def exRespC8 : CtrlMsg :=
  { typeU := some "NewTunnel", reqId := some "req_9"
    url := some "https://demo.retunnel.net", subdomain := some "demo"
    tunnelId := some "demo", protocol := some "http" }

/-- C8 (counterexample): a tunnel whose counters reached `bytes_in = 5`,
`bytes_out = 7` is re-requested during a successful reconnect; the registry
then holds a fresh `Tunnel` object for the same id whose counters are back
to 0 — the accumulated values do not survive the reconnect. -/
theorem claimC8_counterexample :
    exTunnelC8.bytes_in = 5 ∧ exTunnelC8.bytes_out = 7 ∧
    (dictGet (reconnectIterationModel exStateC8
        (some [("req_9", .response exRespC8)])).tunnels "demo").map
      Tunnel.bytes_in = some 0 ∧
    (dictGet (reconnectIterationModel exStateC8
        (some [("req_9", .response exRespC8)])).tunnels "demo").map
      Tunnel.bytes_out = some 0 :=
  ⟨rfl, rfl, rfl, rfl⟩

/-- C8 (amended): `bytes_in` and `bytes_out` are non-decreasing over the
lifetime of a given `Tunnel` object (each proxied exchange only adds
non-negative byte counts), but they are not preserved across a reconnect:
every tunnel returned by `request_tunnel` — in particular each tunnel
re-requested by `_reconnect` — is a fresh object whose counters restart
at 0. -/
theorem claimC8_counters_amended (t : Tunnel) (evs : List (Nat × Nat))
    (st : ClientState) (reqId : String) (cfg : TunnelConfig) (resp : CtrlMsg)
    (t' : Tunnel)
    (h : (requestTunnel st reqId cfg (.response resp)).result = .ok t') :
    t.bytes_in ≤ (applyProxyTrace t evs).bytes_in ∧
    t.bytes_out ≤ (applyProxyTrace t evs).bytes_out ∧
    t'.bytes_in = 0 ∧ t'.bytes_out = 0 := by
  refine ⟨(applyProxyTrace_mono t evs).1, (applyProxyTrace_mono t evs).2, ?_⟩
  simp only [requestTunnel] at h
  split at h
  · simp at h
  · split at h
    · simp at h
    · simp only [Except.ok.injEq] at h
      rw [← h]
      exact ⟨rfl, rfl⟩

/-- The tunnel object built by `request_tunnel` in the C8 witness run. -/
def exBuiltC8 : Tunnel :=
  { id := "demo", url := "https://demo.retunnel.net", protocol := "http"
    config := { protocol := "http", local_port := 8080, subdomain := some "demo" }
    tunnel_id := "demo", subdomain := some "demo" }

/-- Witness for the amended C8 statement at a concrete re-request. -/
theorem claimC8_witness :
    (requestTunnel exStateC8 "req_9" exTunnelC8.config
      (.response exRespC8)).result = .ok exBuiltC8 ∧
    (exTunnelC8.bytes_in ≤ (applyProxyTrace exTunnelC8 [(3, 4)]).bytes_in ∧
     exTunnelC8.bytes_out ≤ (applyProxyTrace exTunnelC8 [(3, 4)]).bytes_out ∧
     exBuiltC8.bytes_in = 0 ∧ exBuiltC8.bytes_out = 0) :=
  ⟨rfl, claimC8_counters_amended exTunnelC8 [(3, 4)] exStateC8 "req_9"
    exTunnelC8.config exRespC8 exBuiltC8 rfl⟩

/-- Big-endian byte encoding of `n` on `k` bytes (Python
`struct.pack(">Q", n)` for `k = 8`, and the length fields of msgpack). -/
def beBytes : Nat → Nat → List Nat
  | 0, _ => []
  | k + 1, n => (n / 256 ^ k) % 256 :: beBytes k n

/-- Big-endian value of a byte string (Python `struct.unpack(">Q", b)[0]`). -/
def beVal (l : List Nat) : Nat :=
  l.foldl (fun a b => a * 256 + b) 0

theorem beBytes_length (k n : Nat) : (beBytes k n).length = k := by
  induction k generalizing n with
  | zero => rfl
  | succ k ih => simp [beBytes, ih]

theorem beVal_foldl (k n a : Nat) :
    (beBytes k n).foldl (fun a b => a * 256 + b) a = a * 256 ^ k + n % 256 ^ k := by
  induction k generalizing a with
  | zero => simp [beBytes, Nat.mod_one]
  | succ k ih =>
      rw [beBytes, List.foldl_cons, ih]
      rw [Nat.mod_pow_succ]
      ring

theorem beVal_beBytes (k n : Nat) (h : n < 256 ^ k) :
    beVal (beBytes k n) = n := by
  unfold beVal
  rw [beVal_foldl]
  simpa using Nat.mod_eq_of_lt h

/-- Reading exactly `k` bytes off the front of a byte string. -/
def takeExact (k : Nat) (l : List Nat) : Option (List Nat × List Nat) :=
  if k ≤ l.length then some (l.take k, l.drop k) else none

theorem takeExact_append (xs rest : List Nat) :
    takeExact xs.length (xs ++ rest) = some (xs, rest) := by
  unfold takeExact
  rw [if_pos (by simp), List.take_left, List.drop_left]

/-- A msgpack value of the shape the control protocol uses: maps from
string keys (represented by their UTF-8 byte strings) to primitives,
byte strings, strings, and nested maps. `float64` carries the raw IEEE-754
bit pattern, which is what travels on the wire. Arrays, extension types and
non-string map keys are not used by the protocol and are not modelled. -/
inductive MsgValue where
  | nil
  | bool (b : Bool)
  | int (n : Int)
  | float64 (bits : Nat)
  | str (s : List Nat)
  | bin (s : List Nat)
  | map (entries : List (List Nat × MsgValue))

/-- Canonical msgpack encoding of a Python int (msgpack-python `Packer`,
which always chooses the smallest representation). -/
def packInt (n : Int) : List Nat :=
  if 0 ≤ n ∧ n < 0x80 then [n.toNat]
  else if -0x20 ≤ n ∧ n < 0 then [(n + 0x100).toNat]
  else if 0 ≤ n ∧ n < 0x100 then [0xcc, n.toNat]
  else if -0x80 ≤ n ∧ n < 0 then [0xd0, (n + 0x100).toNat]
  else if 0 ≤ n ∧ n < 0x10000 then 0xcd :: beBytes 2 n.toNat
  else if -0x8000 ≤ n ∧ n < 0 then 0xd1 :: beBytes 2 (n + 0x10000).toNat
  else if 0 ≤ n ∧ n < 0x100000000 then 0xce :: beBytes 4 n.toNat
  else if -0x80000000 ≤ n ∧ n < 0 then 0xd2 :: beBytes 4 (n + 0x100000000).toNat
  else if 0 ≤ n then 0xcf :: beBytes 8 n.toNat
  else 0xd3 :: beBytes 8 (n + 0x10000000000000000).toNat

/-- Msgpack str header for a payload of `len` bytes (`use_bin_type=True`,
so `str8` is available). -/
def packStrHeader (len : Nat) : List Nat :=
  if len < 32 then [0xa0 + len]
  else if len < 0x100 then [0xd9, len]
  else if len < 0x10000 then 0xda :: beBytes 2 len
  else 0xdb :: beBytes 4 len

/-- Msgpack bin header for a payload of `len` bytes. -/
def packBinHeader (len : Nat) : List Nat :=
  if len < 0x100 then [0xc4, len]
  else if len < 0x10000 then 0xc5 :: beBytes 2 len
  else 0xc6 :: beBytes 4 len

/-- Msgpack map header for `count` key/value pairs. -/
def packMapHeader (count : Nat) : List Nat :=
  if count < 16 then [0x80 + count]
  else if count < 0x10000 then 0xde :: beBytes 2 count
  else 0xdf :: beBytes 4 count

mutual

/-- Model of `msgpack.packb(obj, use_bin_type=True)` on the modelled value
shape. Map entries are written in order (Python dicts preserve insertion
order); keys are packed with the str encoding. -/
def packb : MsgValue → List Nat
  | .nil => [0xc0]
  | .bool false => [0xc2]
  | .bool true => [0xc3]
  | .int n => packInt n
  | .float64 bits => 0xcb :: beBytes 8 bits
  | .str s => packStrHeader s.length ++ s
  | .bin s => packBinHeader s.length ++ s
  | .map l => packMapHeader l.length ++ packEntries l

/-- Concatenated encodings of a map's key/value pairs. -/
def packEntries : List (List Nat × MsgValue) → List Nat
  | [] => []
  | (k, v) :: rest => (packStrHeader k.length ++ k) ++ packb v ++ packEntries rest

end

mutual

/-- What msgpack-python can represent without raising: ints within
`[-2^63, 2^64)`, string/bin payloads and map sizes below `2^32`, 64-bit
float patterns, and bytes below 256. -/
def legalB : MsgValue → Bool
  | .nil => true
  | .bool _ => true
  | .int n => decide (-(2 ^ 63 : Int) ≤ n) && decide (n < 2 ^ 64)
  | .float64 bits => decide (bits < 2 ^ 64)
  | .str s => decide (s.length < 2 ^ 32) && s.all (fun b => decide (b < 256))
  | .bin s => decide (s.length < 2 ^ 32) && s.all (fun b => decide (b < 256))
  | .map l => decide (l.length < 2 ^ 32) && legalEntriesB l

def legalEntriesB : List (List Nat × MsgValue) → Bool
  | [] => true
  | (k, v) :: rest =>
      decide (k.length < 2 ^ 32) && k.all (fun b => decide (b < 256)) &&
        legalB v && legalEntriesB rest

end

mutual

/-- Lower bound on the decoder fuel a value needs: one unit per node plus
two per map entry. -/
def msize : MsgValue → Nat
  | .map l => 1 + entriesSize l
  | _ => 1

def entriesSize : List (List Nat × MsgValue) → Nat
  | [] => 0
  | (_, v) :: rest => 1 + msize v + entriesSize rest

end

/-- Read a `lenBytes`-byte big-endian length then that many payload bytes
(str8/16/32 and bin8/16/32 bodies). -/
def unpackLenPayload (lenBytes : Nat) (mk : List Nat → MsgValue)
    (bs : List Nat) : Option (MsgValue × List Nat) :=
  match takeExact lenBytes bs with
  | some (lb, r1) =>
      match takeExact (beVal lb) r1 with
      | some (s, r2) => some (mk s, r2)
      | none => none
  | none => none

/-- Read a `k`-byte big-endian unsigned integer body. -/
def unpackUInt (k : Nat) (bs : List Nat) : Option (MsgValue × List Nat) :=
  match takeExact k bs with
  | some (lb, r) => some (.int (Int.ofNat (beVal lb)), r)
  | none => none

/-- Read a `k`-byte big-endian two's-complement signed integer body. -/
def unpackSInt (k : Nat) (bs : List Nat) : Option (MsgValue × List Nat) :=
  match takeExact k bs with
  | some (lb, r) =>
      some (.int (if beVal lb < 256 ^ k / 2 then (beVal lb : Int)
                  else (beVal lb : Int) - (256 ^ k : Int)), r)
  | none => none

mutual

/-- Fuel-indexed model of msgpack decoding (`msgpack.unpackb` with
`raw=False`), restricted to the modelled value shape: array, ext and
float32 headers, and non-str map keys, fail the decode. The fuel only
bounds nesting work; `d.length` fuel always suffices for `d`-sized input. -/
def unpackF : Nat → List Nat → Option (MsgValue × List Nat)
  | 0, _ => none
  | _ + 1, [] => none
  | fuel + 1, b :: bs =>
      if b < 0x80 then some (.int (Int.ofNat b), bs)
      else if b < 0x90 then
        match unpackPairsF fuel (b - 0x80) bs with
        | some (l, r) => some (.map l, r)
        | none => none
      else if b < 0xa0 then none
      else if b < 0xc0 then
        match takeExact (b - 0xa0) bs with
        | some (s, r) => some (.str s, r)
        | none => none
      else if b = 0xc0 then some (.nil, bs)
      else if b = 0xc2 then some (.bool false, bs)
      else if b = 0xc3 then some (.bool true, bs)
      else if b = 0xc4 then unpackLenPayload 1 .bin bs
      else if b = 0xc5 then unpackLenPayload 2 .bin bs
      else if b = 0xc6 then unpackLenPayload 4 .bin bs
      else if b = 0xcb then
        match takeExact 8 bs with
        | some (xb, r) => some (.float64 (beVal xb), r)
        | none => none
      else if b = 0xcc then unpackUInt 1 bs
      else if b = 0xcd then unpackUInt 2 bs
      else if b = 0xce then unpackUInt 4 bs
      else if b = 0xcf then unpackUInt 8 bs
      else if b = 0xd0 then unpackSInt 1 bs
      else if b = 0xd1 then unpackSInt 2 bs
      else if b = 0xd2 then unpackSInt 4 bs
      else if b = 0xd3 then unpackSInt 8 bs
      else if b = 0xd9 then unpackLenPayload 1 .str bs
      else if b = 0xda then unpackLenPayload 2 .str bs
      else if b = 0xdb then unpackLenPayload 4 .str bs
      else if b = 0xde then
        match takeExact 2 bs with
        | some (lb, r1) =>
            match unpackPairsF fuel (beVal lb) r1 with
            | some (l, r2) => some (.map l, r2)
            | none => none
        | none => none
      else if b = 0xdf then
        match takeExact 4 bs with
        | some (lb, r1) =>
            match unpackPairsF fuel (beVal lb) r1 with
            | some (l, r2) => some (.map l, r2)
            | none => none
        | none => none
      else if 0xe0 ≤ b ∧ b ≤ 0xff then some (.int ((b : Int) - 0x100), bs)
      else none

/-- Decode `count` key/value pairs of a map body. -/
def unpackPairsF : Nat → Nat → List Nat →
    Option (List (List Nat × MsgValue) × List Nat)
  | _, 0, bs => some ([], bs)
  | 0, _ + 1, _ => none
  | fuel + 1, n + 1, bs =>
      match unpackF fuel bs with
      | some (.str k, r1) =>
          match unpackF fuel r1 with
          | some (v, r2) =>
              match unpackPairsF fuel n r2 with
              | some (l, r3) => some ((k, v) :: l, r3)
              | none => none
          | none => none
      | _ => none

end

theorem unpackF_fixint (fuel b : Nat) (bs : List Nat) (h : b < 0x80) :
    unpackF (fuel + 1) (b :: bs) = some (.int (Int.ofNat b), bs) := by
  unfold unpackF
  rw [if_pos h]

theorem unpackF_negfixint (fuel b : Nat) (bs : List Nat) (h1 : 0xe0 ≤ b)
    (h2 : b ≤ 0xff) :
    unpackF (fuel + 1) (b :: bs) = some (.int ((b : Int) - 0x100), bs) := by
  unfold unpackF
  repeat rw [if_neg (by omega)]
  rw [if_pos ⟨h1, h2⟩]

theorem unpackF_fixstr (fuel b : Nat) (bs : List Nat) (h1 : 0xa0 ≤ b)
    (h2 : b < 0xc0) :
    unpackF (fuel + 1) (b :: bs) =
      (match takeExact (b - 0xa0) bs with
       | some (s, r) => some (.str s, r)
       | none => none) := by
  unfold unpackF
  rw [if_neg (by omega), if_neg (by omega), if_neg (by omega), if_pos h2]

theorem unpackF_fixmap (fuel b : Nat) (bs : List Nat) (h1 : 0x80 ≤ b)
    (h2 : b < 0x90) :
    unpackF (fuel + 1) (b :: bs) =
      (match unpackPairsF fuel (b - 0x80) bs with
       | some (l, r) => some (.map l, r)
       | none => none) := by
  unfold unpackF
  rw [if_neg (by omega), if_pos h2]

theorem unpackF_map16 (fuel : Nat) (bs : List Nat) :
    unpackF (fuel + 1) (0xde :: bs) =
      (match takeExact 2 bs with
       | some (lb, r1) =>
           (match unpackPairsF fuel (beVal lb) r1 with
            | some (l, r2) => some (.map l, r2)
            | none => none)
       | none => none) := rfl

theorem unpackF_map32 (fuel : Nat) (bs : List Nat) :
    unpackF (fuel + 1) (0xdf :: bs) =
      (match takeExact 4 bs with
       | some (lb, r1) =>
           (match unpackPairsF fuel (beVal lb) r1 with
            | some (l, r2) => some (.map l, r2)
            | none => none)
       | none => none) := rfl

theorem unpackF_float64 (fuel : Nat) (bs : List Nat) :
    unpackF (fuel + 1) (0xcb :: bs) =
      (match takeExact 8 bs with
       | some (xb, r) => some (.float64 (beVal xb), r)
       | none => none) := rfl

theorem unpackUInt_bytes (k : Nat) (xs rest : List Nat) (h : xs.length = k) :
    unpackUInt k (xs ++ rest) = some (.int (Int.ofNat (beVal xs)), rest) := by
  have ht : takeExact k (xs ++ rest) = some (xs, rest) := by
    rw [← h]; exact takeExact_append _ _
  unfold unpackUInt
  rw [ht]

theorem unpackSInt_bytes (k : Nat) (xs rest : List Nat) (h : xs.length = k) :
    unpackSInt k (xs ++ rest) =
      some (.int (if beVal xs < 256 ^ k / 2 then (beVal xs : Int)
                  else (beVal xs : Int) - (256 ^ k : Int)), rest) := by
  have ht : takeExact k (xs ++ rest) = some (xs, rest) := by
    rw [← h]; exact takeExact_append _ _
  unfold unpackSInt
  rw [ht]

theorem unpackLenPayload_bytes (kb : Nat) (lb s rest : List Nat)
    (mk : List Nat → MsgValue) (hlb : lb.length = kb)
    (hval : beVal lb = s.length) :
    unpackLenPayload kb mk (lb ++ (s ++ rest)) = some (mk s, rest) := by
  have h1 : takeExact kb (lb ++ (s ++ rest)) = some (lb, s ++ rest) := by
    rw [← hlb]; exact takeExact_append _ _
  have h2 : takeExact (beVal lb) (s ++ rest) = some (s, rest) := by
    rw [hval]; exact takeExact_append _ _
  unfold unpackLenPayload
  rw [h1]
  dsimp only
  rw [h2]

theorem beVal_singleton (x : Nat) : beVal [x] = x := by
  simp [beVal]

theorem unpack_packInt (fuel : Nat) (n : Int) (rest : List Nat)
    (h1 : -(2 ^ 63 : Int) ≤ n) (h2 : n < 2 ^ 64) :
    unpackF (fuel + 1) (packInt n ++ rest) = some (.int n, rest) := by
  unfold packInt
  split_ifs with hA hB hC hD hE hF hG hH hI
  · rw [List.singleton_append, unpackF_fixint _ _ _ (by omega)]
    have : Int.ofNat n.toNat = n := by rw [Int.ofNat_eq_coe]; omega
    rw [this]
  · rw [List.singleton_append,
      unpackF_negfixint _ _ _ (by omega) (by omega)]
    have : (((n + 0x100).toNat : Int)) - 0x100 = n := by omega
    rw [this]
  · show unpackF (fuel + 1) (0xcc :: ([n.toNat] ++ rest)) = _
    have hstep : unpackF (fuel + 1) (0xcc :: ([n.toNat] ++ rest)) =
        unpackUInt 1 ([n.toNat] ++ rest) := rfl
    rw [hstep, unpackUInt_bytes 1 _ _ (by simp), beVal_singleton]
    have : Int.ofNat n.toNat = n := by rw [Int.ofNat_eq_coe]; omega
    rw [this]
  · show unpackF (fuel + 1) (0xd0 :: ([(n + 0x100).toNat] ++ rest)) = _
    have hstep : unpackF (fuel + 1) (0xd0 :: ([(n + 0x100).toNat] ++ rest)) =
        unpackSInt 1 ([(n + 0x100).toNat] ++ rest) := rfl
    rw [hstep, unpackSInt_bytes 1 _ _ (by simp), beVal_singleton]
    rw [if_neg (by omega)]
    have : ((((n + 0x100).toNat : Int)) - 256 ^ 1 : Int) = n := by
      push_cast; omega
    norm_num at this ⊢
    rw [this]
  · show unpackF (fuel + 1) (0xcd :: (beBytes 2 n.toNat ++ rest)) = _
    have hstep : unpackF (fuel + 1) (0xcd :: (beBytes 2 n.toNat ++ rest)) =
        unpackUInt 2 (beBytes 2 n.toNat ++ rest) := rfl
    rw [hstep, unpackUInt_bytes 2 _ _ (beBytes_length 2 _),
      beVal_beBytes 2 _ (by norm_num; omega)]
    have : Int.ofNat n.toNat = n := by rw [Int.ofNat_eq_coe]; omega
    rw [this]
  · show unpackF (fuel + 1) (0xd1 :: (beBytes 2 (n + 0x10000).toNat ++ rest)) = _
    have hstep : unpackF (fuel + 1)
        (0xd1 :: (beBytes 2 (n + 0x10000).toNat ++ rest)) =
        unpackSInt 2 (beBytes 2 (n + 0x10000).toNat ++ rest) := rfl
    rw [hstep, unpackSInt_bytes 2 _ _ (beBytes_length 2 _),
      beVal_beBytes 2 _ (by norm_num; omega)]
    rw [if_neg (by norm_num; omega)]
    have : ((((n + 0x10000).toNat : Int)) - (256 ^ 2 : Int)) = n := by
      push_cast; omega
    norm_num at this ⊢
    rw [this]
  · show unpackF (fuel + 1) (0xce :: (beBytes 4 n.toNat ++ rest)) = _
    have hstep : unpackF (fuel + 1) (0xce :: (beBytes 4 n.toNat ++ rest)) =
        unpackUInt 4 (beBytes 4 n.toNat ++ rest) := rfl
    rw [hstep, unpackUInt_bytes 4 _ _ (beBytes_length 4 _),
      beVal_beBytes 4 _ (by norm_num; omega)]
    have : Int.ofNat n.toNat = n := by rw [Int.ofNat_eq_coe]; omega
    rw [this]
  · show unpackF (fuel + 1)
        (0xd2 :: (beBytes 4 (n + 0x100000000).toNat ++ rest)) = _
    have hstep : unpackF (fuel + 1)
        (0xd2 :: (beBytes 4 (n + 0x100000000).toNat ++ rest)) =
        unpackSInt 4 (beBytes 4 (n + 0x100000000).toNat ++ rest) := rfl
    rw [hstep, unpackSInt_bytes 4 _ _ (beBytes_length 4 _),
      beVal_beBytes 4 _ (by norm_num; omega)]
    rw [if_neg (by norm_num; omega)]
    have : ((((n + 0x100000000).toNat : Int)) - (256 ^ 4 : Int)) = n := by
      push_cast; omega
    norm_num at this ⊢
    rw [this]
  · show unpackF (fuel + 1) (0xcf :: (beBytes 8 n.toNat ++ rest)) = _
    have hstep : unpackF (fuel + 1) (0xcf :: (beBytes 8 n.toNat ++ rest)) =
        unpackUInt 8 (beBytes 8 n.toNat ++ rest) := rfl
    rw [hstep, unpackUInt_bytes 8 _ _ (beBytes_length 8 _),
      beVal_beBytes 8 _ (by norm_num; omega)]
    have : Int.ofNat n.toNat = n := by rw [Int.ofNat_eq_coe]; omega
    rw [this]
  · show unpackF (fuel + 1)
        (0xd3 :: (beBytes 8 (n + 0x10000000000000000).toNat ++ rest)) = _
    have hstep : unpackF (fuel + 1)
        (0xd3 :: (beBytes 8 (n + 0x10000000000000000).toNat ++ rest)) =
        unpackSInt 8 (beBytes 8 (n + 0x10000000000000000).toNat ++ rest) := rfl
    rw [hstep, unpackSInt_bytes 8 _ _ (beBytes_length 8 _),
      beVal_beBytes 8 _ (by norm_num; omega)]
    rw [if_neg (by norm_num; omega)]
    have : ((((n + 0x10000000000000000).toNat : Int)) - (256 ^ 8 : Int)) = n := by
      push_cast; omega
    norm_num at this ⊢
    rw [this]

theorem msize_pos (v : MsgValue) : 1 ≤ msize v := by
  cases v <;> simp [msize]

theorem unpackPairsF_cons (fuel n : Nat) (bs : List Nat) :
    unpackPairsF (fuel + 1) (n + 1) bs =
      (match unpackF fuel bs with
       | some (.str k, r1) =>
           (match unpackF fuel r1 with
            | some (v, r2) =>
                (match unpackPairsF fuel n r2 with
                 | some (l, r3) => some ((k, v) :: l, r3)
                 | none => none)
            | none => none)
       | _ => none) := rfl

theorem unpack_packb_all : ∀ fuel : Nat,
    (∀ v rest, legalB v = true → msize v ≤ fuel →
        unpackF fuel (packb v ++ rest) = some (v, rest)) ∧
    (∀ l rest, legalEntriesB l = true → entriesSize l ≤ fuel →
        unpackPairsF fuel l.length (packEntries l ++ rest) = some (l, rest)) := by
  intro fuel
  induction fuel with
  | zero =>
      constructor
      · intro v rest _ hs
        exact absurd hs (by have := msize_pos v; omega)
      · intro l rest _ hs
        cases l with
        | nil => rfl
        | cons e tl =>
            obtain ⟨k, v⟩ := e
            simp [entriesSize] at hs
  | succ f ih =>
      obtain ⟨ihP, ihQ⟩ := ih
      constructor
      · intro v rest hl hs
        cases v with
        | nil => rfl
        | bool b => cases b <;> rfl
        | int n =>
            simp only [legalB, Bool.and_eq_true, decide_eq_true_eq] at hl
            exact unpack_packInt f n rest hl.1 hl.2
        | float64 bits =>
            simp only [legalB, decide_eq_true_eq] at hl
            show unpackF (f + 1) (0xcb :: (beBytes 8 bits ++ rest)) =
              some (.float64 bits, rest)
            rw [unpackF_float64]
            have ht : takeExact 8 (beBytes 8 bits ++ rest) =
                some (beBytes 8 bits, rest) := by
              rw [← beBytes_length 8 bits]; exact takeExact_append _ _
            rw [ht]
            dsimp only
            rw [beVal_beBytes 8 bits (by norm_num; omega)]
        | str s =>
            simp only [legalB, Bool.and_eq_true, decide_eq_true_eq] at hl
            obtain ⟨hlen, _⟩ := hl
            show unpackF (f + 1) ((packStrHeader s.length ++ s) ++ rest) =
              some (.str s, rest)
            rw [List.append_assoc]
            unfold packStrHeader
            split_ifs with hA hB hC
            · rw [List.singleton_append,
                unpackF_fixstr _ _ _ (by omega) (by omega)]
              have he : (0xa0 + s.length) - 0xa0 = s.length := by omega
              rw [he, takeExact_append]
            · show unpackF (f + 1)
                (0xd9 :: ([s.length] ++ (s ++ rest))) = some (.str s, rest)
              have hstep : unpackF (f + 1)
                  (0xd9 :: ([s.length] ++ (s ++ rest))) =
                  unpackLenPayload 1 .str ([s.length] ++ (s ++ rest)) := rfl
              rw [hstep,
                unpackLenPayload_bytes 1 _ _ _ _ (by simp) (beVal_singleton _)]
            · show unpackF (f + 1)
                (0xda :: (beBytes 2 s.length ++ (s ++ rest))) =
                some (.str s, rest)
              have hstep : unpackF (f + 1)
                  (0xda :: (beBytes 2 s.length ++ (s ++ rest))) =
                  unpackLenPayload 2 .str
                    (beBytes 2 s.length ++ (s ++ rest)) := rfl
              rw [hstep,
                unpackLenPayload_bytes 2 _ _ _ _ (beBytes_length 2 _)
                  (beVal_beBytes 2 _ (by norm_num; omega))]
            · show unpackF (f + 1)
                (0xdb :: (beBytes 4 s.length ++ (s ++ rest))) =
                some (.str s, rest)
              have hstep : unpackF (f + 1)
                  (0xdb :: (beBytes 4 s.length ++ (s ++ rest))) =
                  unpackLenPayload 4 .str
                    (beBytes 4 s.length ++ (s ++ rest)) := rfl
              rw [hstep,
                unpackLenPayload_bytes 4 _ _ _ _ (beBytes_length 4 _)
                  (beVal_beBytes 4 _ (by norm_num; omega))]
        | bin s =>
            simp only [legalB, Bool.and_eq_true, decide_eq_true_eq] at hl
            obtain ⟨hlen, _⟩ := hl
            show unpackF (f + 1) ((packBinHeader s.length ++ s) ++ rest) =
              some (.bin s, rest)
            rw [List.append_assoc]
            unfold packBinHeader
            split_ifs with hA hB
            · show unpackF (f + 1)
                (0xc4 :: ([s.length] ++ (s ++ rest))) = some (.bin s, rest)
              have hstep : unpackF (f + 1)
                  (0xc4 :: ([s.length] ++ (s ++ rest))) =
                  unpackLenPayload 1 .bin ([s.length] ++ (s ++ rest)) := rfl
              rw [hstep,
                unpackLenPayload_bytes 1 _ _ _ _ (by simp) (beVal_singleton _)]
            · show unpackF (f + 1)
                (0xc5 :: (beBytes 2 s.length ++ (s ++ rest))) =
                some (.bin s, rest)
              have hstep : unpackF (f + 1)
                  (0xc5 :: (beBytes 2 s.length ++ (s ++ rest))) =
                  unpackLenPayload 2 .bin
                    (beBytes 2 s.length ++ (s ++ rest)) := rfl
              rw [hstep,
                unpackLenPayload_bytes 2 _ _ _ _ (beBytes_length 2 _)
                  (beVal_beBytes 2 _ (by norm_num; omega))]
            · show unpackF (f + 1)
                (0xc6 :: (beBytes 4 s.length ++ (s ++ rest))) =
                some (.bin s, rest)
              have hstep : unpackF (f + 1)
                  (0xc6 :: (beBytes 4 s.length ++ (s ++ rest))) =
                  unpackLenPayload 4 .bin
                    (beBytes 4 s.length ++ (s ++ rest)) := rfl
              rw [hstep,
                unpackLenPayload_bytes 4 _ _ _ _ (beBytes_length 4 _)
                  (beVal_beBytes 4 _ (by norm_num; omega))]
        | map l =>
            simp only [legalB, Bool.and_eq_true, decide_eq_true_eq] at hl
            obtain ⟨hcnt, hentries⟩ := hl
            have hsz : entriesSize l ≤ f := by
              simp [msize] at hs; omega
            show unpackF (f + 1)
              ((packMapHeader l.length ++ packEntries l) ++ rest) =
              some (.map l, rest)
            rw [List.append_assoc]
            unfold packMapHeader
            split_ifs with hA hB
            · rw [List.singleton_append,
                unpackF_fixmap _ _ _ (by omega) (by omega)]
              have he : (0x80 + l.length) - 0x80 = l.length := by omega
              rw [he, ihQ _ _ hentries hsz]
            · show unpackF (f + 1)
                (0xde :: (beBytes 2 l.length ++ (packEntries l ++ rest))) =
                some (.map l, rest)
              rw [unpackF_map16]
              have ht : takeExact 2
                  (beBytes 2 l.length ++ (packEntries l ++ rest)) =
                  some (beBytes 2 l.length, packEntries l ++ rest) := by
                rw [← beBytes_length 2 l.length]; exact takeExact_append _ _
              rw [ht]
              dsimp only
              rw [beVal_beBytes 2 _ (by norm_num; omega),
                ihQ _ _ hentries hsz]
            · show unpackF (f + 1)
                (0xdf :: (beBytes 4 l.length ++ (packEntries l ++ rest))) =
                some (.map l, rest)
              rw [unpackF_map32]
              have ht : takeExact 4
                  (beBytes 4 l.length ++ (packEntries l ++ rest)) =
                  some (beBytes 4 l.length, packEntries l ++ rest) := by
                rw [← beBytes_length 4 l.length]; exact takeExact_append _ _
              rw [ht]
              dsimp only
              rw [beVal_beBytes 4 _ (by norm_num; omega),
                ihQ _ _ hentries hsz]
      · intro l rest hl hs
        cases l with
        | nil => rfl
        | cons e tl =>
            obtain ⟨k, v⟩ := e
            simp only [entriesSize] at hs
            simp only [legalEntriesB, Bool.and_eq_true, decide_eq_true_eq] at hl
            obtain ⟨⟨⟨hk1, hk2⟩, hv⟩, htl⟩ := hl
            have hmv : 1 ≤ msize v := msize_pos v
            have hkl : legalB (.str k) = true := by
              simp only [legalB, Bool.and_eq_true, decide_eq_true_eq]
              exact ⟨hk1, hk2⟩
            have hshape : packEntries ((k, v) :: tl) ++ rest =
                packb (.str k) ++ (packb v ++ (packEntries tl ++ rest)) := by
              show (packStrHeader k.length ++ k) ++ packb v ++
                  packEntries tl ++ rest = _
              simp [packb, List.append_assoc]
            show unpackPairsF (f + 1) (tl.length + 1)
              (packEntries ((k, v) :: tl) ++ rest) = some ((k, v) :: tl, rest)
            rw [hshape, unpackPairsF_cons,
              ihP (.str k) _ hkl (by simp [msize]; omega)]
            dsimp only
            rw [ihP v _ hv (by omega)]
            dsimp only
            rw [ihQ tl _ htl (by omega)]

theorem packInt_length_pos (n : Int) : 1 ≤ (packInt n).length := by
  unfold packInt
  split_ifs <;> simp [beBytes_length]

theorem packStrHeader_length_pos (len : Nat) :
    1 ≤ (packStrHeader len).length := by
  unfold packStrHeader
  split_ifs <;> simp [beBytes_length]

theorem packBinHeader_length_pos (len : Nat) :
    1 ≤ (packBinHeader len).length := by
  unfold packBinHeader
  split_ifs <;> simp [beBytes_length]

theorem packMapHeader_length_pos (count : Nat) :
    1 ≤ (packMapHeader count).length := by
  unfold packMapHeader
  split_ifs <;> simp [beBytes_length]

mutual

theorem msize_le_packb_length : ∀ v : MsgValue, msize v ≤ (packb v).length
  | .nil => by simp [msize, packb]
  | .bool b => by cases b <;> simp [msize, packb]
  | .int n => by
      have h := packInt_length_pos n
      simpa [msize, packb] using h
  | .float64 bits => by simp [msize, packb, beBytes_length]
  | .str s => by
      have h := packStrHeader_length_pos s.length
      simp [msize, packb]
      omega
  | .bin s => by
      have h := packBinHeader_length_pos s.length
      simp [msize, packb]
      omega
  | .map l => by
      have h1 := entriesSize_le_packEntries_length l
      have h2 := packMapHeader_length_pos l.length
      simp [msize, packb]
      omega

theorem entriesSize_le_packEntries_length :
    ∀ l : List (List Nat × MsgValue), entriesSize l ≤ (packEntries l).length
  | [] => by simp [entriesSize, packEntries]
  | (k, v) :: rest => by
      have h1 := msize_le_packb_length v
      have h2 := entriesSize_le_packEntries_length rest
      have h3 := packStrHeader_length_pos k.length
      simp [entriesSize, packEntries]
      omega

end

/-- Model of `HighPerformanceClient._send_message`: msgpack-encode the
message and prepend the 8-byte big-endian length of the encoded payload
(`struct.pack(">Q", len(data))`), sent as one binary transport message. -/
def sendFrame (v : MsgValue) : List Nat :=
  beBytes 8 (packb v).length ++ packb v

/-- Model of `msgpack.unpackb(data, raw=False)`: decode one value and
require that it consume the whole input (trailing bytes raise `ExtraData`).
`d.length` fuel always suffices since every decoded node consumes at least
one byte. -/
def unpackbTop (d : List Nat) : Option MsgValue :=
  match unpackF d.length d with
  | some (v, []) => some v
  | _ => none

/-- Model of the binary branch of `HighPerformanceClient._receive_message`:
when at least 8 bytes arrived and the 8-byte big-endian prefix equals the
remaining length, strip the prefix; then msgpack-decode. There is no size
cap anywhere on this path. -/
def receiveFrame (data : List Nat) : Option MsgValue :=
  unpackbTop
    (if 8 ≤ data.length then
       if beVal (data.take 8) = data.length - 8 then data.drop 8 else data
     else data)

theorem frame_roundtrip_aux (v : MsgValue) (hl : legalB v = true)
    (hlen : (packb v).length < 2 ^ 64) :
    receiveFrame (sendFrame v) = some v := by
  unfold receiveFrame sendFrame
  have hlenBytes : (beBytes 8 (packb v).length).length = 8 := beBytes_length 8 _
  have htake : (beBytes 8 (packb v).length ++ packb v).take 8 =
      beBytes 8 (packb v).length := by
    rw [← hlenBytes]; exact List.take_left _ _
  have hdrop : (beBytes 8 (packb v).length ++ packb v).drop 8 = packb v := by
    rw [← hlenBytes]; exact List.drop_left _ _
  have hc1 : 8 ≤ (beBytes 8 (packb v).length ++ packb v).length := by
    simp [beBytes_length]
  have hval : beVal ((beBytes 8 (packb v).length ++ packb v).take 8) =
      (beBytes 8 (packb v).length ++ packb v).length - 8 := by
    rw [htake, beVal_beBytes 8 _ (by norm_num; omega)]
    simp [beBytes_length]
  rw [if_pos hc1, if_pos hval, hdrop]
  unfold unpackbTop
  have hfu : unpackF (packb v).length (packb v) = some (v, []) := by
    have h := (unpack_packb_all (packb v).length).1 v [] hl
      (msize_le_packb_length v)
    simpa using h
  rw [hfu]

/-- C4: for every legal frame, encoding with the codec (msgpack plus
8-byte big-endian length prefix) and decoding the received bytes (strip
the prefix when the declared length matches, then msgpack-decode) yields
the frame again exactly — encode composed with decode is the identity on
legal frames over a lossless transport. The hypothesis bounds the encoded
size below `2^64`, which `struct.pack(">Q", ...)` itself requires. -/
theorem claimC4_codec_roundtrip (v : MsgValue) (hl : legalB v = true)
    (hlen : (packb v).length < 2 ^ 64) :
    receiveFrame (sendFrame v) = some v :=
  frame_roundtrip_aux v hl hlen

/-- UTF-8 bytes of an ASCII string, for concrete frames. -/
def strBytes (s : String) : List Nat :=
  s.toList.map (fun c => c.toNat)

/-- A representative legal control frame exercising every modelled msgpack
tag family. -/
def exFrameC4 : MsgValue :=
  .map [(strBytes "Type", .str (strBytes "Auth")),
        (strBytes "ClientId", .str (strBytes "dev_abc123")),
        (strBytes "RemotePort", .int 0),
        (strBytes "Inspect", .bool true),
        (strBytes "Payload", .bin [0, 255, 16]),
        (strBytes "Timestamp", .float64 4746794007244308480),
        (strBytes "Delta", .int (-5))]

set_option maxRecDepth 8192 in
/-- Witness for C4 at a concrete frame. -/
theorem claimC4_witness :
    legalB exFrameC4 = true ∧ (packb exFrameC4).length < 2 ^ 64 ∧
    receiveFrame (sendFrame exFrameC4) = some exFrameC4 :=
  ⟨by decide, by decide,
   claimC4_codec_roundtrip exFrameC4 (by decide) (by decide)⟩

/-- A legal frame whose encoding (and declared length prefix) exceeds the
16 MiB recommended cap: a 32 MiB binary payload. -/
def bigFrameC9 : MsgValue := .bin (List.replicate (2 ^ 25) 0)

theorem bigFrameC9_legal : legalB bigFrameC9 = true := by
  unfold bigFrameC9 legalB
  rw [Bool.and_eq_true]
  constructor
  · rw [decide_eq_true_eq, List.length_replicate]
    norm_num
  · rw [List.all_eq_true]
    intro b hb
    rw [List.eq_of_mem_replicate hb]
    decide

theorem bigFrameC9_length : (packb bigFrameC9).length = 5 + 2 ^ 25 := by
  unfold bigFrameC9 packb
  rw [List.length_append, List.length_replicate]
  unfold packBinHeader
  rw [if_neg (by norm_num), if_neg (by norm_num)]
  simp [beBytes_length]

/-- C9 (counterexample): the codec has no size cap. A well-framed message
whose declared length (the 8-byte prefix value, equal to the msgpack
payload length) exceeds 16 MiB is decoded and delivered normally instead
of being refused with a `ProtocolError`. -/
theorem claimC9_counterexample :
    beVal ((sendFrame bigFrameC9).take 8) = (packb bigFrameC9).length ∧
    16 * 2 ^ 20 < (packb bigFrameC9).length ∧
    receiveFrame (sendFrame bigFrameC9) = some bigFrameC9 := by
  refine ⟨?_, ?_, ?_⟩
  · have htake : (sendFrame bigFrameC9).take 8 =
        beBytes 8 (packb bigFrameC9).length := by
      unfold sendFrame
      calc (beBytes 8 (packb bigFrameC9).length ++ packb bigFrameC9).take 8
          = (beBytes 8 (packb bigFrameC9).length ++ packb bigFrameC9).take
              (beBytes 8 (packb bigFrameC9).length).length := by
            rw [beBytes_length]
        _ = beBytes 8 (packb bigFrameC9).length := List.take_left _ _
    rw [htake]
    exact beVal_beBytes 8 _ (by rw [bigFrameC9_length]; norm_num)
  · rw [bigFrameC9_length]; norm_num
  · exact frame_roundtrip_aux _ bigFrameC9_legal
      (by rw [bigFrameC9_length]; norm_num)

/-- C9 (amended): neither `_receive_message` nor the codec imposes any
length cap: every legal, well-framed message — including those whose
declared length exceeds the recommended 16 MiB cap — is decoded and
delivered; no `ProtocolError` is raised on this path. -/
theorem claimC9_no_cap_amended (v : MsgValue) (hl : legalB v = true)
    (_hbig : 16 * 2 ^ 20 < (packb v).length)
    (hlen : (packb v).length < 2 ^ 64) :
    receiveFrame (sendFrame v) = some v :=
  frame_roundtrip_aux v hl hlen

/-- Witness for the amended C9 statement at the 32 MiB frame. -/
theorem claimC9_witness :
    legalB bigFrameC9 = true ∧
    16 * 2 ^ 20 < (packb bigFrameC9).length ∧
    (packb bigFrameC9).length < 2 ^ 64 ∧
    receiveFrame (sendFrame bigFrameC9) = some bigFrameC9 :=
  ⟨bigFrameC9_legal, by rw [bigFrameC9_length]; norm_num,
   by rw [bigFrameC9_length]; norm_num,
   claimC9_no_cap_amended bigFrameC9 bigFrameC9_legal
     (by rw [bigFrameC9_length]; norm_num)
     (by rw [bigFrameC9_length]; norm_num)⟩

/-- Bytes CPython's `urlsplit` removes from anywhere in a URL
(`_UNSAFE_URL_BYTES_TO_REMOVE = ['\t', '\r', '\n']`, code points 9, 13,
10). -/
def isUnsafeUrlByte (c : Char) : Bool :=
  c.toNat = 9 || c.toNat = 13 || c.toNat = 10

/-- CPython `scheme_chars`: ASCII letters, digits, `+` (43), `-` (45),
`.` (46). -/
def isSchemeChar (c : Char) : Bool :=
  (97 ≤ c.toNat && c.toNat ≤ 122) || (65 ≤ c.toNat && c.toNat ≤ 90) ||
  (48 ≤ c.toNat && c.toNat ≤ 57) || c.toNat = 43 || c.toNat = 45 ||
  c.toNat = 46

/-- Python `c.isascii() and c.isalpha()`. -/
def isAsciiAlphaChar (c : Char) : Bool :=
  (97 ≤ c.toNat && c.toNat ≤ 122) || (65 ≤ c.toNat && c.toNat ≤ 90)

/-- ASCII lowercasing (Python `str.lower()`; the strings it is applied to
here are all ASCII scheme candidates). -/
def lowerChar (c : Char) : Char :=
  if 65 ≤ c.toNat ∧ c.toNat ≤ 90 then Char.ofNat (c.toNat + 32) else c

/-- Lowercase a character list. -/
def lowerList (l : List Char) : List Char := l.map lowerChar

/-- Split at the first occurrence of `c` (Python `s.split(c, 1)` /
`s.find(c)`), returning the parts before and after it. -/
def splitAtFirst (c : Char) : List Char → Option (List Char × List Char)
  | [] => none
  | x :: xs =>
      if x = c then some ([], xs)
      else
        match splitAtFirst c xs with
        | some (a, b) => some (x :: a, b)
        | none => none

/-- Split at the last occurrence of `c` (Python `s.rfind(c)`). -/
def splitAtLast (c : Char) (l : List Char) : Option (List Char × List Char) :=
  match splitAtFirst c l.reverse with
  | some (a, b) => some (b.reverse, a.reverse)
  | none => none

/-- Leading strip plus unsafe-byte removal at the top of CPython
`urlsplit` (`url.lstrip(_WHATWG_C0_CONTROL_OR_SPACE)` then removal of
tab/CR/LF everywhere). -/
def urlPreprocess (l : List Char) : List Char :=
  (l.dropWhile (fun c => c.toNat ≤ 0x20)).filter (fun c => !(isUnsafeUrlByte c))

/-- A character that does not end the netloc (CPython `_splitnetloc` stops
at the earliest of `/`, `?`, `#`). -/
def notNetlocDelim (c : Char) : Bool :=
  !(c = '/' || c = '?' || c = '#')

/-- Result of CPython `urlsplit`. -/
structure UrlSplitRes where
  scheme : List Char
  netloc : List Char
  path : List Char
  query : List Char
  fragment : List Char
deriving DecidableEq, Repr

/-- Result of CPython `urlparse` (adds `params`). -/
structure UrlParseRes where
  scheme : List Char
  netloc : List Char
  path : List Char
  params : List Char
  query : List Char
  fragment : List Char
deriving DecidableEq, Repr

/-- The fragment and query splits at the tail of CPython `urlsplit`
(fragment split first, on the text after the netloc). -/
def finishSplit (scheme nl u : List Char) : UrlSplitRes :=
  let fr := match splitAtFirst '#' u with
    | some (a, b) => (a, b)
    | none => (u, ([] : List Char))
  let pq := match splitAtFirst '?' fr.1 with
    | some (a, b) => (a, b)
    | none => (fr.1, ([] : List Char))
  ⟨scheme, nl, pq.1, pq.2, fr.2⟩

/-- Model of CPython 3.11 `urllib.parse.urlsplit` (with
`allow_fragments=True`). `none` models a raised `ValueError`. The IDNA/NFKC
check of `_checknetloc` and the bracketed-host validation are approximated
conservatively: any netloc containing a bracket or a non-ASCII character is
treated as a parse failure; every theorem below restricts itself to
bracket-free ASCII URLs, where the model is exact. -/
def pyUrlsplit (url0 : List Char) : Option UrlSplitRes :=
  let url1 := urlPreprocess url0
  let sp :=
    match splitAtFirst ':' url1 with
    | some (pre, post) =>
        if pre ≠ [] ∧ isAsciiAlphaChar (pre.headD ' ') = true ∧
            pre.all isSchemeChar = true
        then (lowerList pre, post) else (([] : List Char), url1)
    | none => (([] : List Char), url1)
  match sp.2 with
  | '/' :: '/' :: rest =>
      let nl := rest.takeWhile notNetlocDelim
      let r := rest.dropWhile notNetlocDelim
      if ('[' ∈ nl ∨ ']' ∈ nl) ∨ ¬ (∀ c ∈ nl, c.toNat ≤ 127) then none
      else some (finishSplit sp.1 nl r)
  | u => some (finishSplit sp.1 [] u)

/-- CPython `uses_params`. -/
def usesParams : List (List Char) :=
  ["", "ftp", "hdl", "prospero", "http", "imap", "https", "shttp", "rtsp",
   "rtsps", "rtspu", "sip", "sips", "mms", "sftp", "tel"].map String.toList

/-- CPython `uses_netloc`. -/
def usesNetloc : List (List Char) :=
  ["", "ftp", "http", "gopher", "nntp", "telnet", "imap", "wais", "file",
   "mms", "https", "shttp", "snews", "prospero", "rtsp", "rtsps", "rtspu",
   "rsync", "svn", "svn+ssh", "sftp", "nfs", "git", "git+ssh", "ws",
   "wss"].map String.toList

/-- CPython `_splitparams`: split `;params` off the last path segment. -/
def splitParams (p : List Char) : List Char × List Char :=
  if '/' ∈ p then
    match splitAtLast '/' p with
    | some (before, after) =>
        match splitAtFirst ';' after with
        | some (a, b) => (before ++ '/' :: a, b)
        | none => (p, [])
    | none => (p, [])
  else
    match splitAtFirst ';' p with
    | some (a, b) => (a, b)
    | none => (p, [])

/-- Model of CPython 3.11 `urllib.parse.urlparse`. -/
def pyUrlparse (url : List Char) : Option UrlParseRes :=
  match pyUrlsplit url with
  | none => none
  | some r =>
      if r.scheme ∈ usesParams ∧ ';' ∈ r.path then
        let pq := splitParams r.path
        some ⟨r.scheme, r.netloc, pq.1, pq.2, r.query, r.fragment⟩
      else some ⟨r.scheme, r.netloc, r.path, [], r.query, r.fragment⟩

/-- Model of CPython 3.11 `urllib.parse.urlunparse` (via `urlunsplit`). -/
def pyUrlunparse (scheme netloc path params query fragment : List Char) :
    List Char :=
  let u1 := if params ≠ [] then path ++ ';' :: params else path
  let u2 :=
    if netloc ≠ [] ∨
        (scheme ≠ [] ∧ scheme ∈ usesNetloc ∧ u1.take 2 ≠ ['/', '/']) then
      '/' :: '/' :: (netloc ++
        (if u1 ≠ [] ∧ u1.take 1 ≠ ['/'] then '/' :: u1 else u1))
    else u1
  let u3 := if scheme ≠ [] then scheme ++ ':' :: u2 else u2
  let u4 := if query ≠ [] then u3 ++ '?' :: query else u3
  if fragment ≠ [] then u4 ++ '#' :: fragment else u4

/-- Python `s.rstrip("/")`. -/
def rstripSlash (l : List Char) : List Char :=
  (l.reverse.dropWhile (fun c => c = '/')).reverse

/-- The four textual tests the source applies to an absolute `Location`
value (`location_value.startswith("http://localhost")` etc.). -/
def locPrefixHit (loc : List Char) : Bool :=
  "http://localhost".toList.isPrefixOf loc ||
  "http://127.0.0.1".toList.isPrefixOf loc ||
  "https://localhost".toList.isPrefixOf loc ||
  "https://127.0.0.1".toList.isPrefixOf loc

/-- Shallow embedding of the `Location`-value rewrite inside
`HighPerformanceClient._handle_proxy_connection` (source lines 777-836):
a value starting with `/` gets the tunnel URL (minus trailing slashes)
prepended; otherwise a value starting with one of the four
`http(s)://localhost` / `http(s)://127.0.0.1` prefixes is reassembled from
the tunnel's scheme and netloc and its own path, params, query and
fragment; everything else — including the case where `urlparse` raises and
the `except` clause leaves the header alone — is unchanged. -/
def rewriteLocation (tunnelUrl location : List Char) : List Char :=
  if location.take 1 = ['/'] then rstripSlash tunnelUrl ++ location
  else if locPrefixHit location = true then
    match pyUrlparse location, pyUrlparse tunnelUrl with
    | some p, some t =>
        pyUrlunparse t.scheme t.netloc p.path p.params p.query p.fragment
    | _, _ => location
  else location

/-- String-level wrapper of `rewriteLocation`. -/
def rewriteLocationS (tunnelUrl location : String) : String :=
  (rewriteLocation tunnelUrl.toList location.toList).asString

/-- The statuses the source treats as redirects. -/
def redirectStatuses : List Nat := [301, 302, 303, 307, 308]

/-- The header-level redirect handling: for a response whose status is in
`redirectStatuses`, find the first header whose key equals `Location`
case-insensitively (dict order = insertion order); when its value is
non-empty, replace it by the rewritten value. -/
def processRedirectHeaders (tunnelUrl : List Char) (status : Nat)
    (headers : List (List Char × List Char)) :
    List (List Char × List Char) :=
  if status ∈ redirectStatuses then
    match headers.find? (fun kv => lowerList kv.1 = "location".toList) with
    | some (k, v) =>
        if v ≠ [] then
          headers.map (fun kv =>
            if kv.1 = k then (kv.1, rewriteLocation tunnelUrl v) else kv)
        else headers
    | none => headers
  else headers

theorem splitAtFirst_append (c : Char) (a b : List Char) (ha : c ∉ a) :
    splitAtFirst c (a ++ c :: b) = some (a, b) := by
  induction a with
  | nil => simp [splitAtFirst]
  | cons x xs ih =>
      have hx : ¬ x = c := fun h => ha (h ▸ List.mem_cons_self _ _)
      have hxs : c ∉ xs := fun h => ha (List.mem_cons_of_mem _ h)
      simp only [List.cons_append, splitAtFirst, if_neg hx, List.append_eq,
        ih hxs]

theorem splitAtFirst_of_not_mem (c : Char) (l : List Char) (h : c ∉ l) :
    splitAtFirst c l = none := by
  induction l with
  | nil => rfl
  | cons x xs ih =>
      have hx : ¬ x = c := fun he => h (he ▸ List.mem_cons_self _ _)
      have hxs : c ∉ xs := fun he => h (List.mem_cons_of_mem _ he)
      simp only [splitAtFirst, if_neg hx, ih hxs]

theorem takeWhile_append_stop (p : Char → Bool) (a b : List Char)
    (ha : ∀ x ∈ a, p x = true) (hb : b.takeWhile p = []) :
    (a ++ b).takeWhile p = a := by
  induction a with
  | nil => exact hb
  | cons x xs ih =>
      simp only [List.cons_append, List.takeWhile_cons,
        ha x (List.mem_cons_self _ _)]
      rw [ih (fun y hy => ha y (List.mem_cons_of_mem _ hy))]
      simp

theorem dropWhile_append_stop (p : Char → Bool) (a b : List Char)
    (ha : ∀ x ∈ a, p x = true) (hb : b.dropWhile p = b) :
    (a ++ b).dropWhile p = b := by
  induction a with
  | nil => exact hb
  | cons x xs ih =>
      simp only [List.cons_append, List.dropWhile_cons,
        ha x (List.mem_cons_self _ _), if_true]
      exact ih (fun y hy => ha y (List.mem_cons_of_mem _ hy))

theorem urlPreprocess_noop (l : List Char)
    (h1 : l = [] ∨ ¬ ((l.headD 'a').toNat ≤ 0x20))
    (h2 : ∀ c ∈ l, isUnsafeUrlByte c = false) :
    urlPreprocess l = l := by
  unfold urlPreprocess
  have hd : l.dropWhile (fun c => c.toNat ≤ 0x20) = l := by
    cases l with
    | nil => rfl
    | cons x xs =>
        rcases h1 with h1 | h1
        · exact absurd h1 (by simp)
        · simp only [List.headD_cons] at h1
          simp [List.dropWhile_cons, h1]
  rw [hd]
  rw [List.filter_eq_self]
  intro c hc
  simp [h2 c hc]

theorem isPrefixOf_extend (a b c : List Char) (h : a.isPrefixOf b = true) :
    a.isPrefixOf (b ++ c) = true := by
  induction a generalizing b with
  | nil => simp [List.isPrefixOf]
  | cons x xs ih =>
      cases b with
      | nil => simp [List.isPrefixOf] at h
      | cons y ys =>
          simp only [List.isPrefixOf, List.cons_append, Bool.and_eq_true] at h ⊢
          exact ⟨h.1, ih ys h.2⟩

theorem isPrefixOf_append_both (pre a b : List Char)
    (h : a.isPrefixOf b = true) :
    (pre ++ a).isPrefixOf (pre ++ b) = true := by
  induction pre with
  | nil => exact h
  | cons x xs ih =>
      simp only [List.cons_append, List.isPrefixOf, Bool.and_eq_true]
      exact ⟨by simp, ih⟩

/-- An optional URL component with its marker character (`?query`,
`#fragment`); `none` means the marker is absent. -/
def optPart (mark : Char) : Option (List Char) → List Char
  | none => []
  | some s => mark :: s

theorem finishSplit_parts (scheme nl pp : List Char)
    (q f : Option (List Char)) (hppQ : '?' ∉ pp) (hppH : '#' ∉ pp)
    (hqH : ∀ s, q = some s → '#' ∉ s) :
    finishSplit scheme nl (pp ++ optPart '?' q ++ optPart '#' f) =
      ⟨scheme, nl, pp, q.getD [], f.getD []⟩ := by
  cases q with
  | none =>
      cases f with
      | none =>
          simp only [optPart, List.append_nil]
          simp [finishSplit, splitAtFirst_of_not_mem _ _ hppH,
            splitAtFirst_of_not_mem _ _ hppQ]
      | some fs =>
          simp only [optPart, List.append_nil]
          have h1 : splitAtFirst '#' (pp ++ '#' :: fs) = some (pp, fs) :=
            splitAtFirst_append _ _ _ hppH
          simp [finishSplit, h1, splitAtFirst_of_not_mem _ _ hppQ]
  | some qs =>
      have hq : '#' ∉ qs := hqH qs rfl
      cases f with
      | none =>
          simp only [optPart, List.append_nil]
          have hnoH : '#' ∉ pp ++ '?' :: qs := by
            intro hmem
            rcases List.mem_append.mp hmem with h | h
            · exact hppH h
            · rcases List.mem_cons.mp h with h | h
              · exact absurd h (by decide)
              · exact hq h
          have h2 : splitAtFirst '?' (pp ++ '?' :: qs) = some (pp, qs) :=
            splitAtFirst_append _ _ _ hppQ
          simp [finishSplit, splitAtFirst_of_not_mem _ _ hnoH, h2]
      | some fs =>
          simp only [optPart]
          have hnoH : '#' ∉ pp ++ '?' :: qs := by
            intro hmem
            rcases List.mem_append.mp hmem with h | h
            · exact hppH h
            · rcases List.mem_cons.mp h with h | h
              · exact absurd h (by decide)
              · exact hq h
          have h1 : splitAtFirst '#' (pp ++ '?' :: (qs ++ '#' :: fs)) =
              some (pp ++ '?' :: qs, fs) := by
            have h0 := splitAtFirst_append '#' (pp ++ '?' :: qs) fs hnoH
            simpa [List.append_assoc] using h0
          have h2 : splitAtFirst '?' (pp ++ '?' :: qs) = some (pp, qs) :=
            splitAtFirst_append _ _ _ hppQ
          simp [finishSplit, h1, h2]

theorem schemeChar_not_unsafe (c : Char) (h : isSchemeChar c = true) :
    isUnsafeUrlByte c = false := by
  simp only [isSchemeChar, Bool.or_eq_true, Bool.and_eq_true,
    decide_eq_true_eq] at h
  simp only [isUnsafeUrlByte, Bool.or_eq_false_iff, decide_eq_false_iff_not]
  omega

theorem alpha_gt_space (c : Char) (h : isAsciiAlphaChar c = true) :
    ¬ (c.toNat ≤ 0x20) := by
  simp only [isAsciiAlphaChar, Bool.or_eq_true, Bool.and_eq_true,
    decide_eq_true_eq] at h
  omega

theorem schemeChar_ne_colon (c : Char) (h : isSchemeChar c = true) :
    ¬ c = ':' := by
  intro he
  subst he
  exact absurd h (by decide)

/-- The conditions a character of an authority must satisfy for the model
of `urlsplit` to be exact: ASCII, bracket-free, no netloc delimiter,
and none of the bytes `urlsplit` removes. -/
def netlocChar (c : Char) : Prop :=
  c.toNat ≤ 127 ∧ c ≠ '[' ∧ c ≠ ']' ∧ c ≠ '/' ∧ c ≠ '?' ∧ c ≠ '#' ∧
  isUnsafeUrlByte c = false

theorem netlocChar_delim (c : Char) (h : netlocChar c) :
    notNetlocDelim c = true := by
  obtain ⟨_, _, _, h4, h5, h6, _⟩ := h
  simp [notNetlocDelim, h4, h5, h6]

theorem pyUrlsplit_std (s nl rest : List Char) (hs0 : s ≠ [])
    (hs1 : isAsciiAlphaChar (s.headD ' ') = true)
    (hs2 : ∀ c ∈ s, isSchemeChar c = true)
    (hnl : ∀ c ∈ nl, netlocChar c)
    (hr1 : rest.takeWhile notNetlocDelim = [])
    (hr2 : rest.dropWhile notNetlocDelim = rest)
    (hrest1 : ∀ c ∈ rest, isUnsafeUrlByte c = false) :
    pyUrlsplit (s ++ ':' :: '/' :: '/' :: (nl ++ rest)) =
      some (finishSplit (lowerList s) nl rest) := by
  have hcolon : ':' ∉ s := fun hm => schemeChar_ne_colon _ (hs2 _ hm) rfl
  have hunsafe : ∀ c ∈ s ++ ':' :: '/' :: '/' :: (nl ++ rest),
      isUnsafeUrlByte c = false := by
    intro c hc
    rcases List.mem_append.mp hc with h | h
    · exact schemeChar_not_unsafe c (hs2 c h)
    · rcases List.mem_cons.mp h with rfl | h
      · decide
      · rcases List.mem_cons.mp h with rfl | h
        · decide
        · rcases List.mem_cons.mp h with rfl | h
          · decide
          · rcases List.mem_append.mp h with h | h
            · exact (hnl c h).2.2.2.2.2.2
            · exact hrest1 c h
  have hpre : urlPreprocess (s ++ ':' :: '/' :: '/' :: (nl ++ rest)) =
      s ++ ':' :: '/' :: '/' :: (nl ++ rest) := by
    apply urlPreprocess_noop
    · right
      have hhead : (s ++ ':' :: '/' :: '/' :: (nl ++ rest)).headD 'a' =
          s.headD ' ' := by
        cases s with
        | nil => exact absurd rfl hs0
        | cons x xs => rfl
      rw [hhead]
      exact alpha_gt_space _ hs1
    · exact hunsafe
  have hsplit : splitAtFirst ':' (s ++ ':' :: '/' :: '/' :: (nl ++ rest)) =
      some (s, '/' :: '/' :: (nl ++ rest)) := splitAtFirst_append _ _ _ hcolon
  have hTW : (nl ++ rest).takeWhile notNetlocDelim = nl :=
    takeWhile_append_stop _ _ _ (fun c h => netlocChar_delim c (hnl c h)) hr1
  have hDW : (nl ++ rest).dropWhile notNetlocDelim = rest :=
    dropWhile_append_stop _ _ _ (fun c h => netlocChar_delim c (hnl c h)) hr2
  have hbr : ¬ ((('[' ∈ nl ∨ ']' ∈ nl) ∨ ¬ (∀ c ∈ nl, c.toNat ≤ 127))) := by
    intro h
    rcases h with h | h
    · rcases h with h | h
      · exact (hnl _ h).2.1 rfl
      · exact (hnl _ h).2.2.1 rfl
    · exact h (fun c hc => (hnl c hc).1)
  simp only [pyUrlsplit, hpre, hsplit]
  rw [if_pos ⟨hs0, hs1, List.all_eq_true.mpr hs2⟩]
  simp only [hTW, hDW]
  rw [if_neg hbr]

theorem pyUrlparse_std (s nl pp : List Char) (q f : Option (List Char))
    (hs0 : s ≠ []) (hs1 : isAsciiAlphaChar (s.headD ' ') = true)
    (hs2 : ∀ c ∈ s, isSchemeChar c = true)
    (hnl : ∀ c ∈ nl, netlocChar c)
    (hpp0 : pp = [] ∨ pp.take 1 = ['/'])
    (hppQ : '?' ∉ pp) (hppH : '#' ∉ pp) (hppS : ';' ∉ pp)
    (hppU : ∀ c ∈ pp, isUnsafeUrlByte c = false)
    (hq : ∀ s', q = some s' →
        '#' ∉ s' ∧ ∀ c ∈ s', isUnsafeUrlByte c = false)
    (hf : ∀ s', f = some s' → ∀ c ∈ s', isUnsafeUrlByte c = false) :
    pyUrlparse (s ++ ':' :: '/' :: '/' ::
        (nl ++ (pp ++ optPart '?' q ++ optPart '#' f))) =
      some ⟨lowerList s, nl, pp, [], q.getD [], f.getD []⟩ := by
  have hr1 : (pp ++ optPart '?' q ++ optPart '#' f).takeWhile notNetlocDelim
      = [] := by
    cases pp with
    | cons x xs =>
        rcases hpp0 with h | h
        · exact absurd h (by simp)
        · have hx : x = '/' := by
            simpa [List.take] using h
          subst hx
          simp [List.takeWhile_cons, notNetlocDelim]
    | nil =>
        cases q with
        | some qs => simp [optPart, List.takeWhile_cons, notNetlocDelim]
        | none =>
            cases f with
            | some fs => simp [optPart, List.takeWhile_cons, notNetlocDelim]
            | none => simp [optPart]
  have hr2 : (pp ++ optPart '?' q ++ optPart '#' f).dropWhile notNetlocDelim
      = pp ++ optPart '?' q ++ optPart '#' f := by
    cases pp with
    | cons x xs =>
        rcases hpp0 with h | h
        · exact absurd h (by simp)
        · have hx : x = '/' := by
            simpa [List.take] using h
          subst hx
          simp [List.dropWhile_cons, notNetlocDelim]
    | nil =>
        cases q with
        | some qs => simp [optPart, List.dropWhile_cons, notNetlocDelim]
        | none =>
            cases f with
            | some fs => simp [optPart, List.dropWhile_cons, notNetlocDelim]
            | none => simp [optPart]
  have hrest1 : ∀ c ∈ pp ++ optPart '?' q ++ optPart '#' f,
      isUnsafeUrlByte c = false := by
    intro c hc
    rcases List.mem_append.mp hc with hc | hc
    · rcases List.mem_append.mp hc with hc | hc
      · exact hppU c hc
      · cases q with
        | none => exact absurd hc (by simp [optPart])
        | some qs =>
            rcases List.mem_cons.mp hc with rfl | hc
            · decide
            · exact (hq qs rfl).2 c hc
    · cases f with
      | none => exact absurd hc (by simp [optPart])
      | some fs =>
          rcases List.mem_cons.mp hc with rfl | hc
          · decide
          · exact hf fs rfl c hc
  have hsp := pyUrlsplit_std s nl _ hs0 hs1 hs2 hnl hr1 hr2 hrest1
  have hfin := finishSplit_parts (lowerList s) nl pp q f hppQ hppH
    (fun s' hs' => (hq s' hs').1)
  unfold pyUrlparse
  rw [hsp, hfin]
  dsimp only
  rw [if_neg (fun hand => hppS hand.2)]

theorem lowerList_ne_nil (s : List Char) (h : s ≠ []) : lowerList s ≠ [] := by
  simp only [lowerList, ne_eq, List.map_eq_nil_iff]
  exact h

theorem pyUrlunparse_std (scheme netloc pp : List Char)
    (q f : Option (List Char)) (hn : netloc ≠ [])
    (hpp : pp = [] ∨ pp.take 1 = ['/']) (hs : scheme ≠ [])
    (hq : ∀ s', q = some s' → s' ≠ []) (hf : ∀ s', f = some s' → s' ≠ []) :
    pyUrlunparse scheme netloc pp [] (q.getD []) (f.getD []) =
      scheme ++ ':' :: '/' :: '/' ::
        (netloc ++ (pp ++ optPart '?' q ++ optPart '#' f)) := by
  unfold pyUrlunparse
  rw [if_neg (show ¬ (([] : List Char) ≠ []) by simp)]
  have hinner : (if pp ≠ [] ∧ pp.take 1 ≠ ['/'] then '/' :: pp else pp) =
      pp := by
    rcases hpp with h | h
    · rw [if_neg (fun hand => hand.1 h)]
    · rw [if_neg (fun hand => hand.2 h)]
  dsimp only
  rw [hinner]
  rw [if_pos (Or.inl hn)]
  rw [if_pos hs]
  cases q with
  | none =>
      cases f with
      | none => simp [optPart]
      | some fs =>
          have hf' : fs ≠ [] := hf fs rfl
          simp [optPart, hf', List.append_assoc]
  | some qs =>
      have hq' : qs ≠ [] := hq qs rfl
      cases f with
      | none => simp [optPart, hq', List.append_assoc]
      | some fs =>
          have hf' : fs ≠ [] := hf fs rfl
          simp [optPart, hq', hf', List.append_assoc]

theorem locPrefixHit_of (ls pre nl rest : List Char)
    (hls : ls = "http".toList ∨ ls = "https".toList)
    (hpre : pre = "localhost".toList ∨ pre = "127.0.0.1".toList)
    (h : pre.isPrefixOf nl = true) :
    locPrefixHit (ls ++ ':' :: '/' :: '/' :: (nl ++ rest)) = true := by
  have hext : pre.isPrefixOf (nl ++ rest) = true := isPrefixOf_extend _ _ _ h
  rcases hls with rfl | rfl <;> rcases hpre with rfl | rfl
  · have hform : "http".toList ++ ':' :: '/' :: '/' :: (nl ++ rest) =
        "http://".toList ++ (nl ++ rest) := rfl
    have hx : "http://localhost".toList.isPrefixOf
        ("http://".toList ++ (nl ++ rest)) = true := by
      rw [show "http://localhost".toList =
          "http://".toList ++ "localhost".toList from rfl]
      exact isPrefixOf_append_both _ _ _ hext
    rw [hform]
    unfold locPrefixHit
    rw [hx]
    simp
  · have hform : "http".toList ++ ':' :: '/' :: '/' :: (nl ++ rest) =
        "http://".toList ++ (nl ++ rest) := rfl
    have hx : "http://127.0.0.1".toList.isPrefixOf
        ("http://".toList ++ (nl ++ rest)) = true := by
      rw [show "http://127.0.0.1".toList =
          "http://".toList ++ "127.0.0.1".toList from rfl]
      exact isPrefixOf_append_both _ _ _ hext
    rw [hform]
    unfold locPrefixHit
    rw [hx]
    simp
  · have hform : "https".toList ++ ':' :: '/' :: '/' :: (nl ++ rest) =
        "https://".toList ++ (nl ++ rest) := rfl
    have hx : "https://localhost".toList.isPrefixOf
        ("https://".toList ++ (nl ++ rest)) = true := by
      rw [show "https://localhost".toList =
          "https://".toList ++ "localhost".toList from rfl]
      exact isPrefixOf_append_both _ _ _ hext
    rw [hform]
    unfold locPrefixHit
    rw [hx]
    simp
  · have hform : "https".toList ++ ':' :: '/' :: '/' :: (nl ++ rest) =
        "https://".toList ++ (nl ++ rest) := rfl
    have hx : "https://127.0.0.1".toList.isPrefixOf
        ("https://".toList ++ (nl ++ rest)) = true := by
      rw [show "https://127.0.0.1".toList =
          "https://".toList ++ "127.0.0.1".toList from rfl]
      exact isPrefixOf_append_both _ _ _ hext
    rw [hform]
    unfold locPrefixHit
    rw [hx]
    simp

instance decNetlocChar (c : Char) : Decidable (netlocChar c) :=
  inferInstanceAs (Decidable (c.toNat ≤ 127 ∧ c ≠ '[' ∧ c ≠ ']' ∧ c ≠ '/' ∧
    c ≠ '?' ∧ c ≠ '#' ∧ isUnsafeUrlByte c = false))

/-- C2, counterexample: the source tests the `Location` value with
`location_value.startswith("http://localhost")` (and the three sibling
prefixes), a plain text-prefix test. A value whose authority is
`localhost.evil.com` — not `localhost` — therefore passes the test and is
rewritten onto the tunnel, contradicting the claim that only values whose
scheme+authority are `http(s)://localhost` or `http(s)://127.0.0.1`
(optionally with a port) are reassembled: here the parsed authority is
`localhost.evil.com`, yet the value is changed. -/
theorem claimC2_counterexample :
    (pyUrlparse ("http://localhost.evil.com/x".toList)).map UrlParseRes.netloc
        = some "localhost.evil.com".toList ∧
    rewriteLocationS "https://demo.retunnel.net" "http://localhost.evil.com/x"
        = "https://demo.retunnel.net/x" ∧
    rewriteLocationS "https://demo.retunnel.net" "http://localhost.evil.com/x"
        ≠ "http://localhost.evil.com/x" := by
  refine ⟨rfl, rfl, ?_⟩
  decide

/-- C2 (amended): the `Location` rewrite of `_handle_proxy_connection`:
(1) a value beginning with `/` becomes the tunnel URL minus trailing
slashes concatenated with the value; (2) a value failing all four
`startswith` prefix tests is left unchanged; (3) a well-formed absolute URL
passing one of the prefix tests — which includes every authority merely
*beginning* with `localhost` or `127.0.0.1`, not only those equal to them —
is reassembled from the tunnel's scheme and authority with its own path,
query and fragment preserved. -/
theorem claimC2_rewrite_amended :
    (∀ tun loc : List Char, loc.take 1 = ['/'] →
        rewriteLocation tun loc = rstripSlash tun ++ loc) ∧
    (∀ tun loc : List Char, loc.take 1 ≠ ['/'] → locPrefixHit loc = false →
        rewriteLocation tun loc = loc) ∧
    (∀ ls pre nl pp tns tnn : List Char, ∀ q f : Option (List Char),
        (ls = "http".toList ∨ ls = "https".toList) →
        (pre = "localhost".toList ∨ pre = "127.0.0.1".toList) →
        pre.isPrefixOf nl = true →
        (∀ c ∈ nl, netlocChar c) →
        (pp = [] ∨ pp.take 1 = ['/']) →
        '?' ∉ pp → '#' ∉ pp → ';' ∉ pp →
        (∀ c ∈ pp, isUnsafeUrlByte c = false) →
        (∀ s', q = some s' → s' ≠ [] ∧ '#' ∉ s' ∧
            ∀ c ∈ s', isUnsafeUrlByte c = false) →
        (∀ s', f = some s' → s' ≠ [] ∧
            ∀ c ∈ s', isUnsafeUrlByte c = false) →
        tns ≠ [] →
        isAsciiAlphaChar (tns.headD ' ') = true →
        (∀ c ∈ tns, isSchemeChar c = true) →
        tnn ≠ [] →
        (∀ c ∈ tnn, netlocChar c) →
        rewriteLocation (tns ++ ':' :: '/' :: '/' :: tnn)
            (ls ++ ':' :: '/' :: '/' ::
              (nl ++ (pp ++ optPart '?' q ++ optPart '#' f))) =
          lowerList tns ++ ':' :: '/' :: '/' ::
            (tnn ++ (pp ++ optPart '?' q ++ optPart '#' f))) := by
  refine ⟨?_, ?_, ?_⟩
  · intro tun loc h
    unfold rewriteLocation
    rw [if_pos h]
  · intro tun loc h1 h2
    unfold rewriteLocation
    rw [if_neg h1, if_neg (show ¬ (locPrefixHit loc = true) by simp [h2])]
  · intro ls pre nl pp tns tnn q f hls hpre hprefix hnl hpp0 hppQ hppH hppS
      hppU hq hf htns0 htns1 htns2 htnn0 htnn
    have hls0 : ls ≠ [] := by rcases hls with rfl | rfl <;> decide
    have hls1 : isAsciiAlphaChar (ls.headD ' ') = true := by
      rcases hls with rfl | rfl <;> decide
    have hls2 : ∀ c ∈ ls, isSchemeChar c = true := by
      rcases hls with rfl | rfl <;> decide
    have hp := pyUrlparse_std ls nl pp q f hls0 hls1 hls2 hnl hpp0 hppQ hppH
      hppS hppU (fun s' h => ⟨(hq s' h).2.1, (hq s' h).2.2⟩)
      (fun s' h => (hf s' h).2)
    have ht0 := pyUrlparse_std tns tnn [] none none htns0 htns1 htns2 htnn
      (Or.inl rfl) (by simp) (by simp) (by simp) (by simp)
      (fun s' h => nomatch h) (fun s' h => nomatch h)
    have ht : pyUrlparse (tns ++ ':' :: '/' :: '/' :: tnn) =
        some ⟨lowerList tns, tnn, [], [], [], []⟩ := by
      simpa [optPart] using ht0
    have hhit : locPrefixHit (ls ++ ':' :: '/' :: '/' ::
        (nl ++ (pp ++ optPart '?' q ++ optPart '#' f))) = true :=
      locPrefixHit_of ls pre nl _ hls hpre hprefix
    have htk : ¬ ((ls ++ ':' :: '/' :: '/' ::
        (nl ++ (pp ++ optPart '?' q ++ optPart '#' f))).take 1 = ['/']) := by
      rcases hls with rfl | rfl
      · intro h
        rw [show ("http".toList ++ ':' :: '/' :: '/' ::
            (nl ++ (pp ++ optPart '?' q ++ optPart '#' f))).take 1 = ['h']
          from rfl] at h
        exact absurd h (by decide)
      · intro h
        rw [show ("https".toList ++ ':' :: '/' :: '/' ::
            (nl ++ (pp ++ optPart '?' q ++ optPart '#' f))).take 1 = ['h']
          from rfl] at h
        exact absurd h (by decide)
    unfold rewriteLocation
    rw [if_neg htk, if_pos hhit, hp, ht]
    dsimp only
    exact pyUrlunparse_std (lowerList tns) tnn pp q f htnn0 hpp0
      (lowerList_ne_nil tns htns0) (fun s' h => (hq s' h).1)
      (fun s' h => (hf s' h).1)

/-- C2, witness: the claim's own example pair — `http://localhost:8080/x?y=1`
with tunnel `https://demo.retunnel.net` is rewritten to
`https://demo.retunnel.net/x?y=1`, and `https://example.com/x` is left
unchanged — instantiating the amended theorem's prefix-hit and no-hit
branches. -/
theorem claimC2_witness :
    rewriteLocationS "https://demo.retunnel.net" "http://localhost:8080/x?y=1"
        = "https://demo.retunnel.net/x?y=1" ∧
    rewriteLocationS "https://demo.retunnel.net" "https://example.com/x"
        = "https://example.com/x" := by
  constructor
  · have h := claimC2_rewrite_amended.2.2 "http".toList "localhost".toList
      "localhost:8080".toList "/x".toList "https".toList
      "demo.retunnel.net".toList (some "y=1".toList) none
      (Or.inl rfl) (Or.inl rfl) (by decide) (by decide) (by decide)
      (by decide) (by decide) (by decide) (by decide)
      (fun s' hs' => by cases hs'; exact ⟨by decide, by decide, by decide⟩)
      (fun s' hs' => nomatch hs')
      (by decide) (by decide) (by decide) (by decide) (by decide)
    show (rewriteLocation "https://demo.retunnel.net".toList
        "http://localhost:8080/x?y=1".toList).asString = _
    rw [show "https://demo.retunnel.net".toList =
        "https".toList ++ ':' :: '/' :: '/' :: "demo.retunnel.net".toList
      from rfl]
    rw [show "http://localhost:8080/x?y=1".toList =
        "http".toList ++ ':' :: '/' :: '/' ::
          ("localhost:8080".toList ++ ("/x".toList ++
            optPart '?' (some "y=1".toList) ++ optPart '#' none)) from rfl]
    rw [h]
    rfl
  · have h := claimC2_rewrite_amended.2.1
      "https://demo.retunnel.net".toList "https://example.com/x".toList
      (by decide) (by decide)
    show (rewriteLocation "https://demo.retunnel.net".toList
        "https://example.com/x".toList).asString = _
    rw [h]
    rfl

end Retunnel
